import Mathlib

/-!
# authclient: a self-refreshing token cache

A shallow embedding of `src/authclient/authClient.go`.

* Go `int64` values are Lean integers; every `+` and `-` of the source is
  followed by `wrap64`, the two's-complement wrap-around of Go.
* The two collaborators of the package, the wall clock and the HTTP stack, are
  answered by a `World`: the k-th reading of `time.Now().UnixNano()` and the
  outcome of the k-th HTTP round trip.  The `World` also records every request
  that was sent, so that "no sign-in call" and "exactly one sign-in call" are
  statements about that record.
* Every exported method of the source holds `a.mutex` from its first statement
  to its return.  A call that no other call runs beside is one step
  `AuthClient → World → ...`; goroutines that call `GetToken` side by side are
  a `System`, which holds the mutex and lets them move statement by statement.
* `log.Println` calls write to the process log only and are left out.
* `http.NewRequest` is given a constant method and a URL built from
  `idmServiceUrl`; the embedding covers clients whose `idmServiceUrl` parses.
-/

namespace authclient

/-! ## Machine integers -/

/-- Two's-complement reduction of an integer to the range of Go's `int64`. -/
def wrap64 (x : Int) : Int := (x + 2 ^ 63) % 2 ^ 64 - 2 ^ 63

/-- Go's `int64` addition. -/
def add64 (x y : Int) : Int := wrap64 (x + y)

/-- Go's `int64` subtraction. -/
def sub64 (x y : Int) : Int := wrap64 (x - y)

/-- The values an `int64` can hold. -/
def inInt64 (x : Int) : Prop := -2 ^ 63 ≤ x ∧ x < 2 ^ 63

instance (x : Int) : Decidable (inInt64 x) := by
  unfold inInt64; infer_instance

/-! ## Errors and the outside world -/

/-- The `error` values that can reach a caller of the package. -/
inductive GoError where
  /-- an error of the HTTP stack (`httpClient.Do`, `httpClient.Get`) -/
  | transport (msg : String)
  /-- an error of `ioutil.ReadAll` on the response body -/
  | bodyRead (msg : String)
  /-- the `*json.SyntaxError` of `json.Unmarshal` -/
  | jsonInvalid
  /-- the `*json.UnmarshalTypeError` of `json.Unmarshal` -/
  | jsonType
  deriving DecidableEq, Repr

deriving instance DecidableEq for Except

/-- What one HTTP round trip gives back: `httpClient.Do`/`Get` fails, or it
yields a response whose body is then read, which can fail in turn.  The status
code is not part of it: the source never looks at it. -/
inductive HttpOutcome where
  | failed (err : GoError)
  | response (body : Except GoError String)
  deriving DecidableEq

/-- A request handed to the HTTP stack. -/
inductive Request where
  | signIn (url user password : String)
  | signOut (url : String)
  deriving DecidableEq, Repr

/-- Whether a request is a sign-in request. -/
def Request.isSignIn : Request → Bool
  | .signIn _ _ _ => true
  | .signOut _ => false

/-- The environment of an `AuthClient`. -/
structure World where
  /-- the k-th value returned by `time.Now().UnixNano()` -/
  clock : Nat → Int
  /-- how many clock readings were taken so far -/
  reads : Nat
  /-- the outcome of the k-th HTTP round trip -/
  net : Nat → HttpOutcome
  /-- the requests sent so far, oldest first -/
  sent : List Request

/-- Number of sign-in requests sent so far. -/
def World.signInCalls (w : World) : Nat := (w.sent.filter Request.isSignIn).length

/-- Hand a request to the HTTP stack: it is recorded and answered. -/
def World.roundTrip (w : World) (r : Request) : HttpOutcome × World :=
  (w.net w.sent.length, { w with sent := w.sent ++ [r] })

/-! ## Data model -/

structure SignInResponse where
  Token : String
  Duration : Int
  IdleTimeout : Int
  UserName : String
  UserId : String
  deriving DecidableEq, Repr

structure SignInResponseResponse where
  SignInResponse : SignInResponse
  deriving DecidableEq, Repr

/-- The zero value of `SignInResponse`. -/
def SignInResponse.zero : SignInResponse := ⟨"", 0, 0, "", ""⟩

/-! ## encoding/json

`decodeResponse` hands the body to `json.Unmarshal` of Go's standard library.
The library is embedded in two passes, as it runs: the whole text is first
checked against the JSON grammar (`parseJson`, here also building the value),
and only a valid text is stored into the target struct (`unmarshal`).  Bodies
are texts, that is, byte sequences that are valid UTF-8.
-/

/-- A JSON value.  A number keeps its literal, as the decoder converts it only
once the type of the target field is known. -/
inductive Json where
  | null
  | bool (b : Bool)
  | num (lit : List Char)
  | str (s : List Char)
  | arr (items : List Json)
  | obj (members : List (List Char × Json))

/-- One element of a string literal: a character, or a UTF-16 unit written
as a four-digit hexadecimal escape. -/
inductive StrUnit where
  | lit (c : Char)
  | u16 (n : Nat)

/-- The four white-space characters of the JSON grammar. -/
def isSpace (c : Char) : Bool := c = ' ' || c = '\t' || c = '\r' || c = '\n'

def isDigit (c : Char) : Bool := 48 ≤ c.toNat && c.toNat ≤ 57

def skipSpace : List Char → List Char
  | [] => []
  | c :: cs => if isSpace c then skipSpace cs else c :: cs

/-- Value of a hexadecimal digit. -/
def hexVal (c : Char) : Option Nat :=
  if 48 ≤ c.toNat ∧ c.toNat ≤ 57 then some (c.toNat - 48)
  else if 97 ≤ c.toNat ∧ c.toNat ≤ 102 then some (c.toNat - 87)
  else if 65 ≤ c.toNat ∧ c.toNat ≤ 70 then some (c.toNat - 55)
  else none

/-- The character denoted by a one-letter escape. -/
def simpleEscape (c : Char) : Option Char :=
  if c = '"' then some '"'
  else if c = '\\' then some '\\'
  else if c = '/' then some '/'
  else if c = 'b' then some (Char.ofNat 8)
  else if c = 'f' then some (Char.ofNat 12)
  else if c = 'n' then some '\n'
  else if c = 'r' then some '\r'
  else if c = 't' then some '\t'
  else none

def consUnit (u : StrUnit) :
    Option (List StrUnit × List Char) → Option (List StrUnit × List Char)
  | none => none
  | some (us, rest) => some (u :: us, rest)

/-- Scan a string literal whose opening quote was consumed, up to and
including its closing quote. -/
def scanString : List Char → Option (List StrUnit × List Char)
  | [] => none
  | c :: cs =>
    if c = '"' then some ([], cs)
    else if c = '\\' then
      match cs with
      | [] => none
      | e :: cs1 =>
        if e = 'u' then
          match cs1 with
          | h1 :: h2 :: h3 :: h4 :: cs2 =>
            match hexVal h1, hexVal h2, hexVal h3, hexVal h4 with
            | some x1, some x2, some x3, some x4 =>
              consUnit (.u16 (((x1 * 16 + x2) * 16 + x3) * 16 + x4)) (scanString cs2)
            | _, _, _, _ => none
          | _ => none
        else
          match simpleEscape e with
          | some x => consUnit (.lit x) (scanString cs1)
          | none => none
    else if c.toNat < 32 then none
    else consUnit (.lit c) (scanString cs)

/-- The text of a scanned string literal: a high surrogate followed by a low
one is one character, any other surrogate is U+FFFD. -/
def decodeUnits : List StrUnit → List Char
  | [] => []
  | .lit c :: us => c :: decodeUnits us
  | .u16 hi :: us =>
    if 0xD800 ≤ hi ∧ hi < 0xE000 then
      match us with
      | .u16 lo :: us1 =>
        if hi < 0xDC00 ∧ 0xDC00 ≤ lo ∧ lo < 0xE000 then
          Char.ofNat (0x10000 + (hi - 0xD800) * 0x400 + (lo - 0xDC00)) :: decodeUnits us1
        else Char.ofNat 0xFFFD :: decodeUnits (.u16 lo :: us1)
      | [] => [Char.ofNat 0xFFFD]
      | .lit c :: us1 => Char.ofNat 0xFFFD :: c :: decodeUnits us1
    else Char.ofNat hi :: decodeUnits us

def takeDigits : List Char → List Char × List Char
  | [] => ([], [])
  | c :: cs =>
    if isDigit c then ((c :: (takeDigits cs).1), (takeDigits cs).2) else ([], c :: cs)

/-- Integer part of a number: a single zero, or a non-zero digit and more digits. -/
def scanInt : List Char → Option (List Char × List Char)
  | [] => none
  | c :: cs =>
    if c = '0' then some ([c], cs)
    else if isDigit c then some (c :: (takeDigits cs).1, (takeDigits cs).2)
    else none

/-- Optional fraction: a dot and at least one digit. -/
def scanFrac : List Char → Option (List Char × List Char)
  | [] => some ([], [])
  | c :: cs =>
    if c = '.' then
      match takeDigits cs with
      | ([], _) => none
      | (ds, rest) => some (c :: ds, rest)
    else some ([], c :: cs)

/-- Optional exponent: `e` or `E`, an optional sign and at least one digit. -/
def scanExp : List Char → Option (List Char × List Char)
  | [] => some ([], [])
  | c :: cs =>
    if c = 'e' ∨ c = 'E' then
      match cs with
      | [] => none
      | s :: cs1 =>
        if s = '+' ∨ s = '-' then
          match takeDigits cs1 with
          | ([], _) => none
          | (ds, rest) => some (c :: s :: ds, rest)
        else
          match takeDigits (s :: cs1) with
          | ([], _) => none
          | (ds, rest) => some (c :: ds, rest)
    else some ([], c :: cs)

def scanUnsigned (cs : List Char) : Option (List Char × List Char) :=
  match scanInt cs with
  | none => none
  | some (i, r1) =>
    match scanFrac r1 with
    | none => none
    | some (f, r2) =>
      match scanExp r2 with
      | none => none
      | some (e, r3) => some (i ++ f ++ e, r3)

/-- Scan a number literal; the result is the literal and the rest of the input. -/
def scanNumber : List Char → Option (List Char × List Char)
  | [] => none
  | c :: cs =>
    if c = '-' then
      match scanUnsigned cs with
      | none => none
      | some (lit, rest) => some (c :: lit, rest)
    else scanUnsigned (c :: cs)

def scanWord (word : List Char) (v : Json) (cs : List Char) : Option (Json × List Char) :=
  if word.isPrefixOf cs then some (v, cs.drop word.length) else none

/-- The deepest nesting of arrays and objects that the library accepts
(`maxNestingDepth` of its scanner). -/
def maxNestingDepth : Nat := 10000

mutual
/-- Parse one value, after optional white space.  The first argument bounds
the number of nested calls; `parseJson` starts it above twice the length of the
text, and of any two nested calls one consumes a character.  The second
argument is the number of arrays and objects that are open around the value:
the library gives up at the opening bracket that would make them more than
`maxNestingDepth`. -/
def parseValue : Nat → Nat → List Char → Option (Json × List Char)
  | 0, _, _ => none
  | fuel + 1, depth, cs =>
    match skipSpace cs with
    | [] => none
    | c :: rest =>
      if c = '{' then
        if maxNestingDepth ≤ depth then none
        else
          match skipSpace rest with
          | [] => none
          | d :: rest1 =>
            if d = '}' then some (.obj [], rest1)
            else
              match parseMembers fuel (depth + 1) (d :: rest1) with
              | none => none
              | some (ms, r) => some (.obj ms, r)
      else if c = '[' then
        if maxNestingDepth ≤ depth then none
        else
          match skipSpace rest with
          | [] => none
          | d :: rest1 =>
            if d = ']' then some (.arr [], rest1)
            else
              match parseElements fuel (depth + 1) (d :: rest1) with
              | none => none
              | some (xs, r) => some (.arr xs, r)
      else if c = '"' then
        match scanString rest with
        | none => none
        | some (us, r) => some (.str (decodeUnits us), r)
      else if c = 't' then scanWord ['t', 'r', 'u', 'e'] (.bool true) (c :: rest)
      else if c = 'f' then scanWord ['f', 'a', 'l', 's', 'e'] (.bool false) (c :: rest)
      else if c = 'n' then scanWord ['n', 'u', 'l', 'l'] .null (c :: rest)
      else
        match scanNumber (c :: rest) with
        | none => none
        | some (lit, r) => some (.num lit, r)
/-- Parse the members of an object up to and including its closing brace. -/
def parseMembers : Nat → Nat → List Char → Option (List (List Char × Json) × List Char)
  | 0, _, _ => none
  | fuel + 1, depth, cs =>
    match skipSpace cs with
    | [] => none
    | q :: rest =>
      if q = '"' then
        match scanString rest with
        | none => none
        | some (ks, r1) =>
          match skipSpace r1 with
          | [] => none
          | colon :: r2 =>
            if colon = ':' then
              match parseValue fuel depth r2 with
              | none => none
              | some (v, r3) =>
                match skipSpace r3 with
                | [] => none
                | d :: r4 =>
                  if d = ',' then
                    match parseMembers fuel depth r4 with
                    | none => none
                    | some (ms, r) => some ((decodeUnits ks, v) :: ms, r)
                  else if d = '}' then some ([(decodeUnits ks, v)], r4)
                  else none
            else none
      else none
/-- Parse the elements of an array up to and including its closing bracket. -/
def parseElements : Nat → Nat → List Char → Option (List Json × List Char)
  | 0, _, _ => none
  | fuel + 1, depth, cs =>
    match parseValue fuel depth cs with
    | none => none
    | some (v, r1) =>
      match skipSpace r1 with
      | [] => none
      | d :: r2 =>
        if d = ',' then
          match parseElements fuel depth r2 with
          | none => none
          | some (xs, r) => some (v :: xs, r)
        else if d = ']' then some ([v], r2)
        else none
end

/-- The value of a text that is exactly one JSON value between optional white
space, nested no deeper than `maxNestingDepth`; `none` is the syntax error of
the library. -/
def parseJson (text : String) : Option Json :=
  match parseValue (2 * text.length + 1) 0 text.data with
  | none => none
  | some (v, rest) => if skipSpace rest = [] then some v else none

/-- Case folding of object keys: ASCII letters, and the two characters
outside ASCII that fold to one, U+017F to `s` and U+212A to `k`. -/
def foldChar (c : Char) : Char :=
  if 65 ≤ c.toNat ∧ c.toNat ≤ 90 then Char.ofNat (c.toNat + 32)
  else if c.toNat = 0x17F then 's'
  else if c.toNat = 0x212A then 'k'
  else c

/-- Whether an object key selects the struct field with the given JSON name. -/
def fieldMatches (name : String) (key : List Char) : Bool :=
  name.data.map foldChar = key.map foldChar

def parseDigits (cs : List Char) : Option Nat :=
  if cs ≠ [] ∧ cs.all isDigit = true then
    some (cs.foldl (fun acc c => 10 * acc + (c.toNat - 48)) 0)
  else none

/-- The conversion `strconv.ParseInt(lit, 10, 64)` on a number literal. -/
def parseInt64 : List Char → Option Int
  | [] => none
  | c :: cs =>
    if c = '-' then
      match parseDigits cs with
      | none => none
      | some n => if n ≤ 2 ^ 63 then some (-(n : Int)) else none
    else
      match parseDigits (c :: cs) with
      | none => none
      | some n => if n < 2 ^ 63 then some (n : Int) else none

/-- Store a value into a `string` field. -/
def storeString (old : String) : Json → Except GoError String
  | .str s => .ok (String.mk s)
  | .null => .ok old
  | _ => .error .jsonType

/-- Store a value into an `int64` field. -/
def storeInt64 (old : Int) : Json → Except GoError Int
  | .num lit =>
    match parseInt64 lit with
    | some n => .ok n
    | none => .error .jsonType
  | .null => .ok old
  | _ => .error .jsonType

/-- Store the members of an object one after the other, in the order of the
text. -/
def storeMembers {α : Type} (store : α → List Char → Json → Except GoError α) :
    α → List (List Char × Json) → Except GoError α
  | r, [] => .ok r
  | r, (k, v) :: ms =>
    match store r k v with
    | .error e => .error e
    | .ok r1 => storeMembers store r1 ms

/-- Store one member into a `SignInResponse`, by the `json` tags of the struct;
a key that selects no field is skipped. -/
def storeSignInResponseField (r : SignInResponse) (key : List Char) (v : Json) :
    Except GoError SignInResponse :=
  if fieldMatches "token" key then
    (storeString r.Token v).map (fun x => { r with Token := x })
  else if fieldMatches "duration" key then
    (storeInt64 r.Duration v).map (fun x => { r with Duration := x })
  else if fieldMatches "idleTimeout" key then
    (storeInt64 r.IdleTimeout v).map (fun x => { r with IdleTimeout := x })
  else if fieldMatches "userName" key then
    (storeString r.UserName v).map (fun x => { r with UserName := x })
  else if fieldMatches "userId" key then
    (storeString r.UserId v).map (fun x => { r with UserId := x })
  else .ok r

def storeSignInResponse (old : SignInResponse) : Json → Except GoError SignInResponse
  | .obj ms => storeMembers storeSignInResponseField old ms
  | .null => .ok old
  | _ => .error .jsonType

def storeEnvelopeField (r : SignInResponseResponse) (key : List Char) (v : Json) :
    Except GoError SignInResponseResponse :=
  if fieldMatches "signInResponse" key then
    (storeSignInResponse r.SignInResponse v).map (fun x => { r with SignInResponse := x })
  else .ok r

/-- The call `json.Unmarshal(text, &sir)` for a `SignInResponseResponse`. -/
def unmarshal (text : String) (sir : SignInResponseResponse) :
    Except GoError SignInResponseResponse :=
  match parseJson text with
  | none => .error .jsonInvalid
  | some (.obj ms) => storeMembers storeEnvelopeField sir ms
  | some .null => .ok sir
  | some _ => .error .jsonType

/-! ## The client -/

/-- The fields of `AuthClient` other than the mutex. -/
structure AuthClient where
  token : String
  user : String
  password : String
  idmServiceUrl : String
  lastSignin : Int
  lastAccess : Int
  signinResponse : SignInResponse
  deriving DecidableEq, Repr

def oneHourInMillis : Int := 1 * 3600000

def New (user password idmServiceUrl : String) : AuthClient × Option GoError :=
  ({ token := "", user := user, password := password, idmServiceUrl := idmServiceUrl,
     lastSignin := 0, lastAccess := 0, signinResponse := SignInResponse.zero }, none)

/-- Go's `time.Now().UnixNano() / 1000000`: one reading of the clock, divided
with truncation toward zero. -/
def currentMillis (w : World) : Int × World :=
  (Int.tdiv (w.clock w.reads) 1000000, { w with reads := w.reads + 1 })

def decodeResponse (resp : String) : Except GoError SignInResponse :=
  match unmarshal resp ⟨SignInResponse.zero⟩ with
  | .error err => .error err
  | .ok sir => .ok sir.SignInResponse

/-- The request that `signIn` builds. -/
def signInRequest (a : AuthClient) : Request :=
  .signIn (a.idmServiceUrl ++ "/idm/web/Authentication/signIn?schema=1.0&form=json")
    a.user a.password

/-- The request that `SignOut` builds. -/
def signOutRequest (a : AuthClient) : Request :=
  .signOut (a.idmServiceUrl ++ "/idm/web/Authentication/signOut?schema=1.0&form=json&token="
    ++ a.token)

def signIn (a : AuthClient) (w : World) : Option GoError × AuthClient × World :=
  match w.roundTrip (signInRequest a) with
  | (.failed err, w1) => (some err, a, w1)
  | (.response (.error err), w1) => (some err, a, w1)
  | (.response (.ok body), w1) =>
    match decodeResponse body with
    | .error err => (some err, a, w1)
    | .ok signinResponse =>
      let a1 := { a with token := signinResponse.Token }
      let a2 := { a1 with signinResponse := signinResponse }
      let a3 := { a2 with lastSignin := (currentMillis w1).1 }
      (none, { a3 with lastAccess := a3.lastSignin }, (currentMillis w1).2)

def SignIn (a : AuthClient) (w : World) : Option GoError × AuthClient × World :=
  signIn a w

def SignOut (a : AuthClient) (w : World) : Option GoError × AuthClient × World :=
  match w.roundTrip (signOutRequest a) with
  | (.failed err, w1) => (some err, a, w1)
  | (.response _, w1) => (none, { a with token := "" }, w1)

def tokenAccessible (a : AuthClient) (w : World) : Bool × World :=
  if a.token = "" then (false, w)
  else
    let currMillis := (currentMillis w).1
    let w1 := (currentMillis w).2
    if currMillis > sub64 (add64 a.lastSignin a.signinResponse.Duration) oneHourInMillis then
      (false, w1)
    else if currMillis > sub64 (add64 a.lastAccess a.signinResponse.IdleTimeout) oneHourInMillis then
      (false, w1)
    else (true, w1)

def GetToken (a : AuthClient) (w : World) : (String × Option GoError) × AuthClient × World :=
  match tokenAccessible a w with
  | (true, w1) =>
    let a1 := { a with lastAccess := (currentMillis w1).1 }
    ((a1.token, none), a1, (currentMillis w1).2)
  | (false, w1) =>
    match signIn a w1 with
    | (some err, a1, w2) => (("", some err), a1, w2)
    | (none, a1, w2) => ((a1.token, none), a1, w2)

/-! ## Goroutines calling `GetToken`

Several goroutines call `GetToken` on one `AuthClient`.  A goroutine moves
through the statements of `GetToken` one at a time, and between any two of its
moves any other goroutine may move: a run is a list of goroutine numbers, the
order in which they are given the processor.  `a.mutex` is a `sync.Mutex`:
`Lock` returns only when it finds the mutex unlocked, and locks it; `Unlock`
unlocks it.
-/

/-- Where a goroutine stands in its call of `GetToken`. -/
inductive Pc where
  /-- at `a.mutex.Lock()` -/
  | waiting
  /-- past `Lock`, at `if a.tokenAccessible()` -/
  | entered
  /-- at `a.lastAccess = currentMillis()` and the `return` after it -/
  | hit
  /-- at `err := a.signIn()` and the `return` after it -/
  | miss
  /-- the results are set, the deferred `a.mutex.Unlock()` is to run -/
  | leaving (res : String × Option GoError)
  /-- the call has returned these results -/
  | returned (res : String × Option GoError)
  deriving DecidableEq

/-- Whether the goroutine is between `Lock` and `Unlock`. -/
def Pc.inside : Pc → Bool
  | .entered => true
  | .hit => true
  | .miss => true
  | .leaving _ => true
  | _ => false

/-- The moves a goroutine has left when nothing holds it up. -/
def Pc.remaining : Pc → Nat
  | .waiting => 4
  | .entered => 3
  | .hit => 2
  | .miss => 2
  | .leaving _ => 1
  | .returned _ => 0

/-- The goroutines, the client they share and its environment. -/
structure System where
  /-- the fields of the shared `AuthClient` other than the mutex -/
  client : AuthClient
  /-- whether `a.mutex` is locked -/
  mutex : Bool
  world : World
  /-- how many goroutines there are, numbered from 0 -/
  goroutines : Nat
  /-- where each goroutine stands -/
  pcs : Nat → Pc

def setPc (pcs : Nat → Pc) (i : Nat) (pc : Pc) : Nat → Pc :=
  fun j => if j = i then pc else pcs j

/-- One move of goroutine `i`.  At `Lock` with the mutex locked the goroutine
stays where it is; a goroutine that has returned, or a number that is no
goroutine, moves nothing. -/
def System.step (s : System) (i : Nat) : System :=
  if i < s.goroutines then
    match s.pcs i with
    | .waiting =>
      if s.mutex then s
      else { s with mutex := true, pcs := setPc s.pcs i .entered }
    | .entered =>
      if (tokenAccessible s.client s.world).1 then
        { s with world := (tokenAccessible s.client s.world).2, pcs := setPc s.pcs i .hit }
      else
        { s with world := (tokenAccessible s.client s.world).2, pcs := setPc s.pcs i .miss }
    | .hit =>
      let a1 := { s.client with lastAccess := (currentMillis s.world).1 }
      { s with client := a1, world := (currentMillis s.world).2,
               pcs := setPc s.pcs i (.leaving (a1.token, none)) }
    | .miss =>
      match signIn s.client s.world with
      | (some err, a1, w1) =>
        { s with client := a1, world := w1, pcs := setPc s.pcs i (.leaving ("", some err)) }
      | (none, a1, w1) =>
        { s with client := a1, world := w1, pcs := setPc s.pcs i (.leaving (a1.token, none)) }
    | .leaving res => { s with mutex := false, pcs := setPc s.pcs i (.returned res) }
    | .returned _ => s
  else s

/-- The moves of a schedule, one after the other. -/
def System.run (s : System) : List Nat → System
  | [] => s
  | i :: sched => (s.step i).run sched

/-- The state in which `n` goroutines are about to call `GetToken` on a client
whose mutex is unlocked, as it is in a client fresh from `New`. -/
def System.start (n : Nat) (a : AuthClient) (w : World) : System :=
  { client := a, mutex := false, world := w, goroutines := n, pcs := fun _ => .waiting }

/-- All calls have returned. -/
def System.finished (s : System) : Prop :=
  ∀ i, i < s.goroutines → ∃ res, s.pcs i = .returned res

/-- At most one goroutine is between `Lock` and `Unlock`, and the mutex is
locked exactly when one is. -/
def System.exclusive (s : System) : Prop :=
  (s.mutex = false ∧ ∀ j, j < s.goroutines → (s.pcs j).inside = false) ∨
  (s.mutex = true ∧ ∃ i, i < s.goroutines ∧ (s.pcs i).inside = true ∧
    ∀ j, j < s.goroutines → j ≠ i → (s.pcs j).inside = false)

/-- The schedule in which the first `n` goroutines run one after the other,
each to its return. -/
def oneByOne : Nat → List Nat
  | 0 => []
  | n + 1 => oneByOne n ++ [n, n, n, n]

/-- What the goroutines and the cache look like, started on the client `a0`
in the environment `w0`, when the first sign-in is answered with `r`: either
nothing was sent yet and the client is as it was, or that one sign-in was sent
and stored, and every call that has its results has the token of `r`. -/
def System.singleSignIn (a0 : AuthClient) (w0 : World) (r : SignInResponse) (s : System) :
    Prop :=
  (s.client = a0 ∧ s.world = w0 ∧
    ∀ j, j < s.goroutines → s.pcs j = .waiting ∨ s.pcs j = .entered ∨ s.pcs j = .miss) ∨
  (∃ k m, w0.reads ≤ k ∧ w0.reads < m ∧
    s.client = { a0 with token := r.Token, signinResponse := r,
                         lastSignin := Int.tdiv (w0.clock w0.reads) 1000000,
                         lastAccess := Int.tdiv (w0.clock k) 1000000 } ∧
    s.world = { w0 with sent := w0.sent ++ [signInRequest a0], reads := m } ∧
    ∀ j, j < s.goroutines →
      s.pcs j = .waiting ∨ s.pcs j = .entered ∨ s.pcs j = .hit ∨
      s.pcs j = .leaving (r.Token, none) ∨ s.pcs j = .returned (r.Token, none))

/-- The answer the environment gives to the next sign-in request: the error
of the transport or of reading the body, or the decoded body. -/
def World.nextSignIn (w : World) : Except GoError SignInResponse :=
  match w.net w.sent.length with
  | .failed err => .error err
  | .response (.error err) => .error err
  | .response (.ok body) => decodeResponse body

/-- The body of `TestResponseDecode`. -/
def sampleResponse : String :=
  "\x7b\n\"signInResponse\": \x7b\n\"token\": \"Q4ppbgqEymry1Ml4g4v8sSCeoIC8sICC\",\n\"duration\": 315360000000,\n\"idleTimeout\": 14400000,\n\"userName\": \"admin@theplatform.com\",\n\"userId\": \"http://stg-admin.identity.auth.theplatform.com/idm/data/User/mps/1150127438\"\n\x7d\n\x7d"



/-! ## Sample clients and environments -/

/-- An environment whose clock always shows `nanos` and whose HTTP stack
always answers `out`; nothing was read or sent yet. -/
def constWorld (nanos : Int) (out : HttpOutcome) : World :=
  { clock := fun _ => nanos, reads := 0, net := fun _ => out, sent := [] }

/-- A client holding the token `abc`, signed in and last used at
1700000000000 ms, with the validity of the sample response. -/
def cachedClient : AuthClient :=
  { token := "abc", user := "user", password := "secret", idmServiceUrl := "http://idm",
    lastSignin := 1700000000000, lastAccess := 1700000000000,
    signinResponse := ⟨"abc", 315360000000, 14400000, "user", "id"⟩ }

/-- A client as `New` returns it. -/
def freshClient : AuthClient := (New "user" "secret" "http://idm").1

/-- A sign-in response whose two durations are the largest `int64`. -/
def longLivedBody : String :=
  "\x7b\"signInResponse\":\x7b\"token\":\"abc\",\"duration\":9223372036854775807,\"idleTimeout\":9223372036854775807\x7d\x7d"

/-- A sign-in response whose duration is the smallest `int64`. -/
def negativeBody : String :=
  "\x7b\"signInResponse\":\x7b\"token\":\"abc\",\"duration\":-9223372036854775808,\"idleTimeout\":14400000\x7d\x7d"

/-- The sign-in response of the scenario of the specification: token `abc`,
duration 1000000, idle timeout 900000. -/
def shortLivedBody : String :=
  "\x7b\"signInResponse\":\x7b\"token\":\"abc\",\"duration\":1000000,\"idleTimeout\":900000\x7d\x7d"

/-- An environment whose clock stands at 1700000000000 ms and whose identity
service answers every request with the given body. -/
def serviceWorld (body : String) : World :=
  constWorld 1700000000000000000 (.response (.ok body))

/-- An environment whose clock stands at the epoch, 0 ms, and whose identity
service answers every request with the given body. -/
def epochWorld (body : String) : World :=
  constWorld 0 (.response (.ok body))

/-- The value that `n + 1` nested empty arrays denote. -/
def nestedArrays : Nat → Json
  | 0 => .arr []
  | n + 1 => .arr [nestedArrays n]

/-- A body that is valid JSON and holds other fields only. -/
def otherFieldsBody : String := "\x7b\"status\": \"ok\", \"code\": 200\x7d"

/-! ## Response bodies of the documented form

The text of a body `{"signInResponse": {"token": t, "duration": d,
"idleTimeout": i, "userName": u, "userId": v}}`, with any white space between
its tokens.  These definitions follow the JSON grammar, not the source; the
decoder is run on what they produce.
-/

/-- How a character is written inside a string literal. -/
def escapeChar (c : Char) : List Char :=
  if c = '"' then ['\\', '"']
  else if c = '\\' then ['\\', '\\']
  else if c.toNat < 32 then
    ['\\', 'u', '0', '0', Nat.digitChar (c.toNat / 16), Nat.digitChar (c.toNat % 16)]
  else [c]

def escapeChars : List Char → List Char
  | [] => []
  | c :: cs => escapeChar c ++ escapeChars cs

/-- The string literal that denotes `s`. -/
def stringLiteral (s : String) : List Char :=
  '"' :: (escapeChars s.data ++ ['"'])

/-- The decimal literal that denotes `d`. -/
def intLiteral (d : Int) : List Char :=
  if d < 0 then '-' :: Nat.toDigits 10 d.natAbs else Nat.toDigits 10 d.toNat

/-- What may follow a number literal: nothing, or a character that cannot
continue it. -/
def numberEnds (rest : List Char) : Prop :=
  ∀ c cs, rest = c :: cs → isDigit c = false ∧ c ≠ '.' ∧ c ≠ 'e' ∧ c ≠ 'E'

/-- One member of an object and what follows it: white space, the key, white
space, a colon, white space, the value, white space, the rest.  The white space
is taken from `ws` at the positions `k` to `k + 3`. -/
def memberText (ws : Nat → List Char) (k : Nat) (key : String) (value rest : List Char) :
    List Char :=
  ws k ++ (stringLiteral key ++ (ws (k + 1) ++ (':' :: (ws (k + 2) ++
    (value ++ (ws (k + 3) ++ rest))))))

/-- The object with the five fields of a `SignInResponse`. -/
def signInResponseText (ws : Nat → List Char) (token : String) (duration idleTimeout : Int)
    (userName userId : String) : List Char :=
  '{' :: memberText ws 5 "token" (stringLiteral token) (',' ::
    memberText ws 9 "duration" (intLiteral duration) (',' ::
    memberText ws 13 "idleTimeout" (intLiteral idleTimeout) (',' ::
    memberText ws 17 "userName" (stringLiteral userName) (',' ::
    memberText ws 21 "userId" (stringLiteral userId) ['}']))))

/-- A response body of the documented form; `ws` gives the white space at
each of its 26 positions. -/
def signInBody (ws : Nat → List Char) (token : String) (duration idleTimeout : Int)
    (userName userId : String) : String :=
  String.mk (ws 0 ++ ('{' :: memberText ws 1 "signInResponse"
    (signInResponseText ws token duration idleTimeout userName userId) ('}' :: ws 25)))

/-- The white space of `sampleResponse`: a line feed before each key and each
closing brace, a blank after each colon. -/
def sampleSpaces (k : Nat) : List Char :=
  if k = 0 ∨ k = 25 then []
  else if k = 4 ∨ k = 24 then ['\n']
  else if k % 4 = 1 then ['\n']
  else if k % 4 = 3 then [' ']
  else []

/-! ## Theorems -/

theorem wrap64_of_inInt64 {x : Int} (h : inInt64 x) : wrap64 x = x := by
  unfold inInt64 at h
  unfold wrap64
  omega

theorem wrap64_sub_wrap64 (x y : Int) : wrap64 (wrap64 x - y) = wrap64 (x - y) := by
  unfold wrap64
  omega

/-- The deadline that `tokenAccessible` computes is the exact one as soon as
the exact one is an `int64`. -/
theorem deadline_exact {t d : Int} (h : inInt64 (t + d - 3600000)) :
    sub64 (add64 t d) oneHourInMillis = t + d - 3600000 := by
  unfold sub64 add64 oneHourInMillis
  rw [wrap64_sub_wrap64]
  exact wrap64_of_inInt64 (by simpa using h)

theorem tokenAccessible_sent (a : AuthClient) (w : World) :
    (tokenAccessible a w).2.sent = w.sent ∧ (tokenAccessible a w).2.net = w.net := by
  unfold tokenAccessible currentMillis
  dsimp only
  split_ifs <;> simp

theorem tokenAccessible_empty (a : AuthClient) (w : World) (h : a.token = "") :
    tokenAccessible a w = (false, w) := by
  unfold tokenAccessible
  simp [h]

theorem nextSignIn_congr (w w1 : World) (hs : w1.sent = w.sent) (hn : w1.net = w.net) :
    w1.nextSignIn = w.nextSignIn := by
  unfold World.nextSignIn
  rw [hs, hn]

theorem signIn_of_error (a : AuthClient) (w : World) (e : GoError)
    (h : w.nextSignIn = .error e) :
    signIn a w = (some e, a, { w with sent := w.sent ++ [signInRequest a] }) := by
  unfold World.nextSignIn at h
  unfold signIn World.roundTrip
  cases hn : w.net w.sent.length with
  | failed err => rw [hn] at h; simp at h; simp [h]
  | response b =>
    cases b with
    | error err => rw [hn] at h; simp at h; simp [h]
    | ok body => rw [hn] at h; simp at h; simp [h]

theorem signIn_of_ok (a : AuthClient) (w : World) (r : SignInResponse)
    (h : w.nextSignIn = .ok r) :
    signIn a w =
      (none,
       { a with token := r.Token, signinResponse := r,
                lastSignin := Int.tdiv (w.clock w.reads) 1000000,
                lastAccess := Int.tdiv (w.clock w.reads) 1000000 },
       { w with sent := w.sent ++ [signInRequest a], reads := w.reads + 1 }) := by
  unfold World.nextSignIn at h
  unfold signIn World.roundTrip currentMillis
  cases hn : w.net w.sent.length with
  | failed err => rw [hn] at h; simp at h
  | response b =>
    cases b with
    | error err => rw [hn] at h; simp at h
    | ok body => rw [hn] at h; simp at h; simp [h]

theorem GetToken_of_not_accessible (a : AuthClient) (w : World)
    (h : (tokenAccessible a w).1 = false) :
    GetToken a w =
      (match signIn a (tokenAccessible a w).2 with
       | (some err, a1, w2) => (("", some err), a1, w2)
       | (none, a1, w2) => ((a1.token, none), a1, w2)) := by
  unfold GetToken
  generalize tokenAccessible a w = p at h
  obtain ⟨b, w1⟩ := p
  simp only at h
  subst h
  rfl

theorem GetToken_of_accessible (a : AuthClient) (w : World)
    (h : (tokenAccessible a w).1 = true) :
    GetToken a w =
      ((a.token, none),
       { a with lastAccess := (currentMillis (tokenAccessible a w).2).1 },
       (currentMillis (tokenAccessible a w).2).2) := by
  unfold GetToken
  generalize tokenAccessible a w = p at h
  obtain ⟨b, w1⟩ := p
  simp only at h
  subst h
  rfl

/-- With both deadlines representable, `tokenAccessible` compares the clock
with the exact deadlines. -/
theorem tokenAccessible_eq_true_iff (a : AuthClient) (w : World)
    (hd : inInt64 (a.lastSignin + a.signinResponse.Duration - 3600000))
    (hi : inInt64 (a.lastAccess + a.signinResponse.IdleTimeout - 3600000)) :
    (tokenAccessible a w).1 = true ↔
      a.token ≠ "" ∧
      (currentMillis w).1 ≤ a.lastSignin + a.signinResponse.Duration - 3600000 ∧
      (currentMillis w).1 ≤ a.lastAccess + a.signinResponse.IdleTimeout - 3600000 := by
  unfold tokenAccessible
  rw [deadline_exact hd, deadline_exact hi]
  by_cases ht : a.token = ""
  · simp [ht]
  · simp only [ht, if_false]
    by_cases h1 : (currentMillis w).1 > a.lastSignin + a.signinResponse.Duration - 3600000
    · simp [h1]
    · by_cases h2 : (currentMillis w).1 > a.lastAccess + a.signinResponse.IdleTimeout - 3600000
      · simp [h1, h2]
      · simp only [h1, h2, if_false]
        simp only [gt_iff_lt, not_lt] at h1 h2
        simp [h1, h2, ht]

/-- C1: with both deadlines representable as `int64`, `tokenAccessible` holds
exactly when the token is not empty and the reading of the clock is at most
`lastSignin + Duration - 3600000` and at most
`lastAccess + IdleTimeout - 3600000`. -/
theorem tokenAccessible_iff (a : AuthClient) (w : World)
    (hd : inInt64 (a.lastSignin + a.signinResponse.Duration - 3600000))
    (hi : inInt64 (a.lastAccess + a.signinResponse.IdleTimeout - 3600000)) :
    (tokenAccessible a w).1 = true ↔
      a.token ≠ "" ∧
      (currentMillis w).1 ≤ a.lastSignin + a.signinResponse.Duration - 3600000 ∧
      (currentMillis w).1 ≤ a.lastAccess + a.signinResponse.IdleTimeout - 3600000 := by
  unfold tokenAccessible
  rw [deadline_exact hd, deadline_exact hi]
  by_cases ht : a.token = ""
  · simp [ht]
  · simp only [ht, if_false]
    by_cases h1 : (currentMillis w).1 > a.lastSignin + a.signinResponse.Duration - 3600000
    · simp [h1]
    · by_cases h2 : (currentMillis w).1 > a.lastAccess + a.signinResponse.IdleTimeout - 3600000
      · simp [h1, h2]
      · simp only [h1, h2, if_false]
        simp only [gt_iff_lt, not_lt] at h1 h2
        simp [h1, h2, ht]

theorem tokenAccessible_iff_witness :
    inInt64 (cachedClient.lastSignin + cachedClient.signinResponse.Duration - 3600000) ∧
    inInt64 (cachedClient.lastAccess + cachedClient.signinResponse.IdleTimeout - 3600000) ∧
    ((tokenAccessible cachedClient
        (constWorld 1700000000000000000 (.failed (.transport "down")))).1 = true ↔
      cachedClient.token ≠ "" ∧
      (currentMillis (constWorld 1700000000000000000 (.failed (.transport "down")))).1 ≤
        cachedClient.lastSignin + cachedClient.signinResponse.Duration - 3600000 ∧
      (currentMillis (constWorld 1700000000000000000 (.failed (.transport "down")))).1 ≤
        cachedClient.lastAccess + cachedClient.signinResponse.IdleTimeout - 3600000) :=
  ⟨by decide, by decide,
   tokenAccessible_iff cachedClient _ (by decide) (by decide)⟩

/-- A failed sign-in is reported and changes nothing. -/
theorem signIn_error_unchanged (a : AuthClient) (w : World) (e : GoError)
    (hfail : w.nextSignIn = .error e) :
    ((SignIn a w).1 = some e ∧ (SignIn a w).2.1 = a) ∧
    ((tokenAccessible a w).1 = false →
      (GetToken a w).1 = ("", some e) ∧ (GetToken a w).2.1 = a) := by
  constructor
  · unfold SignIn
    rw [signIn_of_error a w e hfail]
    exact ⟨rfl, rfl⟩
  · intro hacc
    have h2 : (tokenAccessible a w).2.nextSignIn = .error e := by
      rw [nextSignIn_congr w _ (tokenAccessible_sent a w).1 (tokenAccessible_sent a w).2]
      exact hfail
    rw [GetToken_of_not_accessible a w hacc, signIn_of_error a _ e h2]
    exact ⟨rfl, rfl⟩


/-- C5: when the sign-in attempted by `SignIn` or by `GetToken` fails, in the
transport, in reading the body or in decoding it, the call returns that error
(`GetToken` with the empty string) and the client is as it was before. -/
theorem signIn_failure_keeps_state (a : AuthClient) (w : World) (e : GoError)
    (hfail : w.nextSignIn = .error e) :
    ((SignIn a w).1 = some e ∧ (SignIn a w).2.1 = a) ∧
    ((tokenAccessible a w).1 = false →
      (GetToken a w).1 = ("", some e) ∧ (GetToken a w).2.1 = a) := by
  constructor
  · unfold SignIn
    rw [signIn_of_error a w e hfail]
    exact ⟨rfl, rfl⟩
  · intro hacc
    have h2 : (tokenAccessible a w).2.nextSignIn = .error e := by
      rw [nextSignIn_congr w _ (tokenAccessible_sent a w).1 (tokenAccessible_sent a w).2]
      exact hfail
    rw [GetToken_of_not_accessible a w hacc, signIn_of_error a _ e h2]
    exact ⟨rfl, rfl⟩

theorem signIn_failure_keeps_state_witness :
    (constWorld 1714400000000000000 (.failed (.transport "down"))).nextSignIn
      = .error (.transport "down") ∧
    (SignIn cachedClient
      (constWorld 1714400000000000000 (.failed (.transport "down")))).1
      = some (.transport "down") ∧
    (SignIn cachedClient
      (constWorld 1714400000000000000 (.failed (.transport "down")))).2.1 = cachedClient ∧
    (GetToken cachedClient
      (constWorld 1714400000000000000 (.failed (.transport "down")))).1
      = ("", some (.transport "down")) ∧
    (GetToken cachedClient
      (constWorld 1714400000000000000 (.failed (.transport "down")))).2.1 = cachedClient :=
  ⟨rfl,
   (signIn_failure_keeps_state cachedClient
      (constWorld 1714400000000000000 (.failed (.transport "down")))
      (.transport "down") rfl).1.1,
   (signIn_failure_keeps_state cachedClient
      (constWorld 1714400000000000000 (.failed (.transport "down")))
      (.transport "down") rfl).1.2,
   ((signIn_failure_keeps_state cachedClient
      (constWorld 1714400000000000000 (.failed (.transport "down")))
      (.transport "down") rfl).2 (by decide)).1,
   ((signIn_failure_keeps_state cachedClient
      (constWorld 1714400000000000000 (.failed (.transport "down")))
      (.transport "down") rfl).2 (by decide)).2⟩

/-- A `GetToken` that finds no accessible token sends exactly one request, a
sign-in, and returns what that sign-in gave. -/
theorem GetToken_refresh (a : AuthClient) (w : World)
    (hacc : (tokenAccessible a w).1 = false) :
    (GetToken a w).2.2.sent = w.sent ++ [signInRequest a] ∧
    (GetToken a w).1 =
      (match w.nextSignIn with
       | .error e => ("", some e)
       | .ok r => (r.Token, none)) := by
  have hs := (tokenAccessible_sent a w).1
  have hc := nextSignIn_congr w _ (tokenAccessible_sent a w).1 (tokenAccessible_sent a w).2
  rw [GetToken_of_not_accessible a w hacc]
  cases hn : w.nextSignIn with
  | error e =>
    rw [hn] at hc
    rw [signIn_of_error a _ e hc]
    simp [hs]
  | ok r =>
    rw [hn] at hc
    rw [signIn_of_ok a _ r hc]
    simp [hs]

theorem GetToken_of_empty (a : AuthClient) (w : World) (h : a.token = "") :
    (GetToken a w).2.2.sent = w.sent ++ [signInRequest a] ∧
    (GetToken a w).1 =
      (match w.nextSignIn with
       | .error e => ("", some e)
       | .ok r => (r.Token, none)) :=
  GetToken_refresh a w (by rw [tokenAccessible_empty a w h])

/-- The client after a `SignIn` that returned no error. -/
theorem SignIn_ok_state (a0 : AuthClient) (w0 : World) (hok : (SignIn a0 w0).1 = none) :
    ∃ r, w0.nextSignIn = .ok r ∧
      (SignIn a0 w0).2.1 =
        { a0 with token := r.Token, signinResponse := r,
                  lastSignin := Int.tdiv (w0.clock w0.reads) 1000000,
                  lastAccess := Int.tdiv (w0.clock w0.reads) 1000000 } := by
  unfold SignIn at hok ⊢
  cases hn : w0.nextSignIn with
  | error e => rw [signIn_of_error a0 w0 e hn] at hok; simp at hok
  | ok r => exact ⟨r, rfl, by rw [signIn_of_ok a0 w0 r hn]⟩

/-- A clock reading that is an `int64` of nanoseconds is, in milliseconds,
far inside the `int64` range. -/
theorem tdiv_million_bounds (c : Int) (h : inInt64 c) :
    -9223372036855 ≤ Int.tdiv c 1000000 ∧ Int.tdiv c 1000000 ≤ 9223372036855 := by
  unfold inInt64 at h
  rcases le_or_lt 0 c with hc | hc
  · rw [Int.tdiv_eq_ediv hc (by norm_num)]
    omega
  · have h1 : Int.tdiv c 1000000 = -(Int.tdiv (-c) 1000000) := by
      rw [Int.neg_tdiv, neg_neg]
    rw [h1, Int.tdiv_eq_ediv (by omega) (by norm_num)]
    omega

/-- C7, as the code has it: when the sign-out request fails in the transport,
`SignOut` returns that error and leaves the client, its token included, as it
was. -/
theorem signOut_transport_error (a : AuthClient) (w : World) (e : GoError)
    (h : w.net w.sent.length = .failed e) :
    (SignOut a w).1 = some e ∧ (SignOut a w).2.1 = a := by
  unfold SignOut World.roundTrip
  simp [h]

theorem signOut_transport_error_witness :
    (constWorld 1700000000000000000 (.failed (.transport "down"))).net
        (constWorld 1700000000000000000 (.failed (.transport "down"))).sent.length
      = .failed (.transport "down") ∧
    (SignOut cachedClient
        (constWorld 1700000000000000000 (.failed (.transport "down")))).1
      = some (.transport "down") ∧
    (SignOut cachedClient
        (constWorld 1700000000000000000 (.failed (.transport "down")))).2.1
      = cachedClient :=
  ⟨rfl, signOut_transport_error cachedClient _ (.transport "down") rfl⟩

/-- C7 fails as stated: a sign-out whose request fails in the transport
returns the error and the cached token `abc` is still there. -/
theorem signOut_keeps_token_on_transport_error :
    (SignOut cachedClient
        (constWorld 1700000000000000000 (.failed (.transport "down")))).1
      = some (.transport "down") ∧
    (SignOut cachedClient
        (constWorld 1700000000000000000 (.failed (.transport "down")))).2.1.token = "abc" ∧
    (SignOut cachedClient
        (constWorld 1700000000000000000 (.failed (.transport "down")))).2.1.token ≠ "" := by
  decide

/-- C8: after a `SignOut` that returns no error the token is empty, and the
next `GetToken`, in whatever environment and at whatever time, sends exactly
one request, a sign-in, and returns what that sign-in gave: its token, or the
empty string with its error. -/
theorem signOut_then_getToken (a : AuthClient) (w : World)
    (hok : (SignOut a w).1 = none) :
    (SignOut a w).2.1.token = "" ∧
    ∀ w2 : World,
      (GetToken (SignOut a w).2.1 w2).2.2.sent
        = w2.sent ++ [signInRequest (SignOut a w).2.1] ∧
      (GetToken (SignOut a w).2.1 w2).1 =
        (match w2.nextSignIn with
         | .error e => ("", some e)
         | .ok r => (r.Token, none)) := by
  have ht : (SignOut a w).2.1.token = "" := by
    unfold SignOut World.roundTrip at hok ⊢
    cases hn : w.net w.sent.length with
    | failed err => rw [hn] at hok; simp at hok
    | response b => simp
  exact ⟨ht, fun w2 => GetToken_of_empty _ w2 ht⟩

theorem signOut_then_getToken_witness :
    (SignOut cachedClient
        (constWorld 1700000000000000000 (.response (.ok sampleResponse)))).1 = none ∧
    (SignOut cachedClient
        (constWorld 1700000000000000000 (.response (.ok sampleResponse)))).2.1.token = "" ∧
    (GetToken (SignOut cachedClient
        (constWorld 1700000000000000000 (.response (.ok sampleResponse)))).2.1
        (constWorld 1700000000000000000 (.response (.ok sampleResponse)))).2.2.sent
      = (constWorld 1700000000000000000 (.response (.ok sampleResponse))).sent ++
          [signInRequest (SignOut cachedClient
            (constWorld 1700000000000000000 (.response (.ok sampleResponse)))).2.1] :=
  ⟨rfl,
   (signOut_then_getToken cachedClient
      (constWorld 1700000000000000000 (.response (.ok sampleResponse))) rfl).1,
   ((signOut_then_getToken cachedClient
      (constWorld 1700000000000000000 (.response (.ok sampleResponse))) rfl).2
      (constWorld 1700000000000000000 (.response (.ok sampleResponse)))).1⟩


/-- C2 fails as stated: a sign-in at T = 1700000000000 stores the token `abc`
with D = I = 9223372036854775807; d = 0 meets `0 ≤ d`, `d < D - 3600000` and
`d < I - 3600000`, yet `T + D` wraps around and the `GetToken` at time T + 0
sends a second sign-in request. -/
theorem cache_hit_fails_on_overflow :
    (SignIn freshClient (serviceWorld longLivedBody)).1 = none ∧
    (SignIn freshClient (serviceWorld longLivedBody)).2.1.token = "abc" ∧
    (SignIn freshClient (serviceWorld longLivedBody)).2.1.lastSignin = 1700000000000 ∧
    (SignIn freshClient (serviceWorld longLivedBody)).2.1.signinResponse.Duration
      = 9223372036854775807 ∧
    (SignIn freshClient (serviceWorld longLivedBody)).2.1.signinResponse.IdleTimeout
      = 9223372036854775807 ∧
    (0 : Int) < 9223372036854775807 - 3600000 ∧
    (currentMillis (SignIn freshClient (serviceWorld longLivedBody)).2.2).1
      = 1700000000000 + 0 ∧
    (SignIn freshClient (serviceWorld longLivedBody)).2.2.sent.length = 1 ∧
    (GetToken (SignIn freshClient (serviceWorld longLivedBody)).2.1
      (SignIn freshClient (serviceWorld longLivedBody)).2.2).2.2.sent
      = [signInRequest freshClient, signInRequest freshClient] := by
  set_option maxRecDepth 100000 in decide

/-- C2, as the code has it: after a sign-in at time T (an `int64` clock
reading) that stored a token that is not empty, with durations D and I, a
`GetToken` at a time `T + d` with `0 ≤ d`, `d < D - 3600000` and
`d < I - 3600000` returns that token with no error and sends no request,
provided neither `T + D - 3600000` nor `T + I - 3600000` exceeds the largest
`int64`. -/
theorem getToken_cache_hit (a0 : AuthClient) (w0 w : World) (d : Int)
    (hok : (SignIn a0 w0).1 = none)
    (ht : (SignIn a0 w0).2.1.token ≠ "")
    (hclock : inInt64 (w0.clock w0.reads))
    (hd0 : 0 ≤ d)
    (hdD : d < (SignIn a0 w0).2.1.signinResponse.Duration - 3600000)
    (hdI : d < (SignIn a0 w0).2.1.signinResponse.IdleTimeout - 3600000)
    (hnow : (currentMillis w).1 = (SignIn a0 w0).2.1.lastSignin + d)
    (hD : (SignIn a0 w0).2.1.lastSignin + (SignIn a0 w0).2.1.signinResponse.Duration
            - 3600000 < 2 ^ 63)
    (hI : (SignIn a0 w0).2.1.lastSignin + (SignIn a0 w0).2.1.signinResponse.IdleTimeout
            - 3600000 < 2 ^ 63) :
    (GetToken (SignIn a0 w0).2.1 w).1 = ((SignIn a0 w0).2.1.token, none) ∧
    (GetToken (SignIn a0 w0).2.1 w).2.2.sent = w.sent := by
  obtain ⟨r, -, hst⟩ := SignIn_ok_state a0 w0 hok
  have hb := tdiv_million_bounds _ hclock
  have hla : (SignIn a0 w0).2.1.lastAccess = (SignIn a0 w0).2.1.lastSignin := by rw [hst]
  have hls : (SignIn a0 w0).2.1.lastSignin = Int.tdiv (w0.clock w0.reads) 1000000 := by
    rw [hst]
  generalize (SignIn a0 w0).2.1 = a at *
  have hacc : (tokenAccessible a w).1 = true := by
    refine (tokenAccessible_eq_true_iff a w ?_ ?_).mpr ⟨ht, ?_, ?_⟩
    · unfold inInt64; omega
    · unfold inInt64; omega
    · omega
    · omega
  rw [GetToken_of_accessible a w hacc]
  refine ⟨rfl, ?_⟩
  simp only [currentMillis]
  exact (tokenAccessible_sent a w).1

theorem getToken_cache_hit_witness :
    (SignIn freshClient (serviceWorld sampleResponse)).1 = none ∧
    (SignIn freshClient (serviceWorld sampleResponse)).2.1.token ≠ "" ∧
    (GetToken (SignIn freshClient (serviceWorld sampleResponse)).2.1
        (SignIn freshClient (serviceWorld sampleResponse)).2.2).1
      = ((SignIn freshClient (serviceWorld sampleResponse)).2.1.token, none) ∧
    (GetToken (SignIn freshClient (serviceWorld sampleResponse)).2.1
        (SignIn freshClient (serviceWorld sampleResponse)).2.2).2.2.sent
      = (SignIn freshClient (serviceWorld sampleResponse)).2.2.sent :=
  ⟨by set_option maxRecDepth 100000 in decide,
   by set_option maxRecDepth 100000 in decide,
   getToken_cache_hit freshClient (serviceWorld sampleResponse)
     (SignIn freshClient (serviceWorld sampleResponse)).2.2 0
     (by set_option maxRecDepth 100000 in decide)
     (by set_option maxRecDepth 100000 in decide)
     (by decide)
     (by decide)
     (by set_option maxRecDepth 100000 in decide)
     (by set_option maxRecDepth 100000 in decide)
     (by set_option maxRecDepth 100000 in decide)
     (by set_option maxRecDepth 100000 in decide)
     (by set_option maxRecDepth 100000 in decide)⟩

/-- C3 fails as stated: a sign-in at T = 0 stores the token `abc` with
D = -9223372036854775808 and I = 14400000; the time 0 is past the duration
deadline `T + D - 3600000`, yet the subtraction wraps around and the `GetToken`
at time 0 returns the cached token and sends no sign-in request. -/
theorem expired_token_served_on_underflow :
    (SignIn freshClient (epochWorld negativeBody)).1 = none ∧
    (SignIn freshClient (epochWorld negativeBody)).2.1.token = "abc" ∧
    (SignIn freshClient (epochWorld negativeBody)).2.1.lastSignin = 0 ∧
    (SignIn freshClient (epochWorld negativeBody)).2.1.signinResponse.Duration
      = -9223372036854775808 ∧
    (currentMillis (SignIn freshClient (epochWorld negativeBody)).2.2).1 = 0 ∧
    (0 : Int) > 0 + (-9223372036854775808) - 3600000 ∧
    (GetToken (SignIn freshClient (epochWorld negativeBody)).2.1
      (SignIn freshClient (epochWorld negativeBody)).2.2).1 = ("abc", none) ∧
    (GetToken (SignIn freshClient (epochWorld negativeBody)).2.1
      (SignIn freshClient (epochWorld negativeBody)).2.2).2.2.sent
      = (SignIn freshClient (epochWorld negativeBody)).2.2.sent := by
  set_option maxRecDepth 100000 in decide

/-- Past a representable deadline the token is not accessible and `GetToken`
signs in. -/
theorem GetToken_of_past_deadline (a : AuthClient) (w : World)
    (ht : a.token ≠ "")
    (hpast :
      (inInt64 (a.lastSignin + a.signinResponse.Duration - 3600000) ∧
        (currentMillis w).1 > a.lastSignin + a.signinResponse.Duration - 3600000) ∨
      (inInt64 (a.lastAccess + a.signinResponse.IdleTimeout - 3600000) ∧
        (currentMillis w).1 > a.lastAccess + a.signinResponse.IdleTimeout - 3600000)) :
    (tokenAccessible a w).1 = false ∧
    (GetToken a w).2.2.sent = w.sent ++ [signInRequest a] ∧
    (GetToken a w).1 =
      (match w.nextSignIn with
       | .error e => ("", some e)
       | .ok r => (r.Token, none)) := by
  have hacc : (tokenAccessible a w).1 = false := by
    unfold tokenAccessible
    simp only [ht, if_false]
    rcases hpast with ⟨hr, hp⟩ | ⟨hr, hp⟩
    · rw [deadline_exact hr]
      simp [hp]
    · rw [deadline_exact hr]
      split_ifs <;> simp_all
  exact ⟨hacc, GetToken_refresh a w hacc⟩

/-- C3, as the code has it: for a client holding a token that is not empty,
a `GetToken` at a time past `lastSignin + Duration - 3600000` or past
`lastAccess + IdleTimeout - 3600000`, the deadline that has passed being an
`int64`, sends exactly one request, a sign-in, and returns what that sign-in
gave: its token, or the empty string with its error. -/
theorem getToken_past_deadline (a : AuthClient) (w : World)
    (ht : a.token ≠ "")
    (hpast :
      (inInt64 (a.lastSignin + a.signinResponse.Duration - 3600000) ∧
        (currentMillis w).1 > a.lastSignin + a.signinResponse.Duration - 3600000) ∨
      (inInt64 (a.lastAccess + a.signinResponse.IdleTimeout - 3600000) ∧
        (currentMillis w).1 > a.lastAccess + a.signinResponse.IdleTimeout - 3600000)) :
    (tokenAccessible a w).1 = false ∧
    (GetToken a w).2.2.sent = w.sent ++ [signInRequest a] ∧
    (GetToken a w).1 =
      (match w.nextSignIn with
       | .error e => ("", some e)
       | .ok r => (r.Token, none)) := by
  have hacc : (tokenAccessible a w).1 = false := by
    unfold tokenAccessible
    simp only [ht, if_false]
    rcases hpast with ⟨hr, hp⟩ | ⟨hr, hp⟩
    · rw [deadline_exact hr]
      simp [hp]
    · rw [deadline_exact hr]
      split_ifs <;> simp_all
  exact ⟨hacc, GetToken_refresh a w hacc⟩

theorem getToken_past_deadline_witness :
    cachedClient.token ≠ "" ∧
    (tokenAccessible cachedClient
      (constWorld 1714400000000000000 (.failed (.transport "down")))).1 = false ∧
    (GetToken cachedClient
      (constWorld 1714400000000000000 (.failed (.transport "down")))).2.2.sent
      = [] ++ [signInRequest cachedClient] :=
  ⟨by decide,
   (getToken_past_deadline cachedClient
      (constWorld 1714400000000000000 (.failed (.transport "down")))
      (by decide) (Or.inr (by decide))).1,
   (getToken_past_deadline cachedClient
      (constWorld 1714400000000000000 (.failed (.transport "down")))
      (by decide) (Or.inr (by decide))).2.1⟩

/-- C4 fails as stated: after a sign-in that returned token `abc`, duration
1000000 and idle timeout 900000, the `GetToken` that follows at once sends a
second sign-in request. -/
theorem scenario_getToken_signs_in_again :
    (SignIn freshClient (serviceWorld shortLivedBody)).1 = none ∧
    (SignIn freshClient (serviceWorld shortLivedBody)).2.1.signinResponse
      = ⟨"abc", 1000000, 900000, "", ""⟩ ∧
    (SignIn freshClient (serviceWorld shortLivedBody)).2.2.sent
      = [signInRequest freshClient] ∧
    (GetToken (SignIn freshClient (serviceWorld shortLivedBody)).2.1
      (SignIn freshClient (serviceWorld shortLivedBody)).2.2).2.2.sent
      = [signInRequest freshClient, signInRequest freshClient] ∧
    (GetToken (SignIn freshClient (serviceWorld shortLivedBody)).2.1
      (SignIn freshClient (serviceWorld shortLivedBody)).2.2).2.2.signInCalls = 2 := by
  set_option maxRecDepth 100000 in decide

/-- C4, as the code has it: after a sign-in that returned token `abc`,
duration 1000000 and idle timeout 900000, a `GetToken` at the time of the
sign-in or later does not answer from the cache, the duration being below
the margin of 3600000: it sends exactly one request, a sign-in, and returns
what that sign-in gave. -/
theorem getToken_after_short_lived_signIn (a0 : AuthClient) (w0 w : World) (u v : String)
    (hresp : w0.nextSignIn = .ok ⟨"abc", 1000000, 900000, u, v⟩)
    (hclock : inInt64 (w0.clock w0.reads))
    (hnow : (SignIn a0 w0).2.1.lastSignin ≤ (currentMillis w).1) :
    (SignIn a0 w0).1 = none ∧
    (SignIn a0 w0).2.1.token = "abc" ∧
    (GetToken (SignIn a0 w0).2.1 w).2.2.sent = w.sent ++ [signInRequest (SignIn a0 w0).2.1] ∧
    (GetToken (SignIn a0 w0).2.1 w).1 =
      (match w.nextSignIn with
       | .error e => ("", some e)
       | .ok r => (r.Token, none)) := by
  have hs : SignIn a0 w0 = _ := signIn_of_ok a0 w0 _ hresp
  have hb := tdiv_million_bounds _ hclock
  rw [hs] at hnow ⊢
  simp only at hnow
  refine ⟨rfl, rfl, ?_⟩
  refine (GetToken_of_past_deadline _ w (by simp) (Or.inl ⟨?_, ?_⟩)).2
  · unfold inInt64; simp only; omega
  · simp only; omega

theorem getToken_after_short_lived_signIn_witness :
    (serviceWorld shortLivedBody).nextSignIn = .ok ⟨"abc", 1000000, 900000, "", ""⟩ ∧
    (GetToken (SignIn freshClient (serviceWorld shortLivedBody)).2.1
      (SignIn freshClient (serviceWorld shortLivedBody)).2.2).2.2.sent
      = (SignIn freshClient (serviceWorld shortLivedBody)).2.2.sent ++
          [signInRequest (SignIn freshClient (serviceWorld shortLivedBody)).2.1] :=
  ⟨by set_option maxRecDepth 100000 in decide,
   (getToken_after_short_lived_signIn freshClient (serviceWorld shortLivedBody)
      (SignIn freshClient (serviceWorld shortLivedBody)).2.2 "" ""
      (by set_option maxRecDepth 100000 in decide)
      (by decide)
      (by set_option maxRecDepth 100000 in decide)).2.2.1⟩

/-- Members none of which is the envelope leave the target as it is. -/
theorem storeMembers_no_envelope (sir : SignInResponseResponse)
    (ms : List (List Char × Json))
    (h : ∀ kv ∈ ms, fieldMatches "signInResponse" kv.1 = false) :
    storeMembers storeEnvelopeField sir ms = .ok sir := by
  induction ms with
  | nil => rfl
  | cons kv ms ih =>
    obtain ⟨k, v⟩ := kv
    have hk : fieldMatches "signInResponse" k = false := h (k, v) (List.mem_cons_self _ _)
    have hstep : storeEnvelopeField sir k v = .ok sir := by
      unfold storeEnvelopeField
      simp [hk]
    unfold storeMembers
    rw [hstep]
    exact ih (fun kv hkv => h kv (List.mem_cons_of_mem _ hkv))

theorem decodeResponse_of_invalid (body : String) (h : parseJson body = none) :
    decodeResponse body = .error .jsonInvalid := by
  unfold decodeResponse unmarshal
  rw [h]

theorem decodeResponse_no_envelope (body : String) (ms : List (List Char × Json))
    (hp : parseJson body = some (.obj ms))
    (h : ∀ kv ∈ ms, fieldMatches "signInResponse" kv.1 = false) :
    decodeResponse body = .ok SignInResponse.zero := by
  unfold decodeResponse unmarshal
  rw [hp]
  simp only
  rw [storeMembers_no_envelope _ ms h]

theorem decodeResponse_of_null (body : String) (hp : parseJson body = some .null) :
    decodeResponse body = .ok SignInResponse.zero := by
  unfold decodeResponse unmarshal
  rw [hp]

/-- A body that is an array, a string, a number or a boolean cannot be stored
into the struct. -/
theorem decodeResponse_of_other (body : String) (v : Json)
    (hp : parseJson body = some v) (hobj : ∀ ms, v ≠ .obj ms) (hnull : v ≠ .null) :
    decodeResponse body = .error .jsonType := by
  unfold decodeResponse unmarshal
  rw [hp]
  cases v with
  | null => exact absurd rfl hnull
  | obj ms => exact absurd rfl (hobj ms)
  | bool b => rfl
  | num lit => rfl
  | str x => rfl
  | arr items => rfl

/-- C6 fails as stated: the bodies `{}`, `{"status": "ok", "code": 200}` and
`null` are valid JSON without the envelope, yet `decodeResponse` returns no
error for them, `SignIn` returns no error and the cached token `abc` is
overwritten by the empty string. -/
theorem signIn_accepts_missing_envelope :
    decodeResponse "\x7b\x7d" = .ok SignInResponse.zero ∧
    decodeResponse otherFieldsBody = .ok SignInResponse.zero ∧
    decodeResponse "null" = .ok SignInResponse.zero ∧
    cachedClient.token = "abc" ∧
    (SignIn cachedClient (serviceWorld "\x7b\x7d")).1 = none ∧
    (SignIn cachedClient (serviceWorld "\x7b\x7d")).2.1.token = "" ∧
    (SignIn cachedClient (serviceWorld "\x7b\x7d")).2.1 ≠ cachedClient ∧
    (SignIn cachedClient (serviceWorld otherFieldsBody)).1 = none ∧
    (SignIn cachedClient (serviceWorld otherFieldsBody)).2.1 ≠ cachedClient ∧
    (SignIn cachedClient (serviceWorld "null")).1 = none ∧
    (SignIn cachedClient (serviceWorld "null")).2.1 ≠ cachedClient := by
  set_option maxRecDepth 100000 in decide

/-- C6, as the code has it.  A body that is not valid JSON, or is nested
deeper than 10000, is rejected with a syntax error, and a body that is valid
JSON and is an array, a string, a number or a boolean is rejected with a type
error; for every body that `decodeResponse` rejects, the sign-in of `SignIn`
and of a refreshing `GetToken` returns that error and the client is as it was
before.  A body that is `null`, or an object without a member whose key is
`signInResponse` in any letter case, is not rejected: the sign-in of `SignIn`
and of a refreshing `GetToken` returns no error and stores the zero
`SignInResponse` with the time of the clock, so that the token becomes empty,
and `GetToken` returns the empty string with no error. -/
theorem signIn_decode (a : AuthClient) (w : World) (body : String)
    (hbody : w.net w.sent.length = .response (.ok body)) :
    (parseJson body = none → decodeResponse body = .error .jsonInvalid) ∧
    (∀ v, parseJson body = some v → (∀ ms, v ≠ .obj ms) → v ≠ .null →
      decodeResponse body = .error .jsonType) ∧
    (∀ e, decodeResponse body = .error e →
      ((SignIn a w).1 = some e ∧ (SignIn a w).2.1 = a) ∧
      ((tokenAccessible a w).1 = false →
        (GetToken a w).1 = ("", some e) ∧ (GetToken a w).2.1 = a)) ∧
    ((parseJson body = some .null ∨
      ∃ ms, parseJson body = some (.obj ms) ∧
        ∀ kv ∈ ms, fieldMatches "signInResponse" kv.1 = false) →
      (SignIn a w).1 = none ∧
      (SignIn a w).2.1 =
        { a with token := "", signinResponse := SignInResponse.zero,
                 lastSignin := Int.tdiv (w.clock w.reads) 1000000,
                 lastAccess := Int.tdiv (w.clock w.reads) 1000000 } ∧
      ((tokenAccessible a w).1 = false →
        (GetToken a w).1 = ("", none) ∧
        (GetToken a w).2.1 =
          { a with token := "", signinResponse := SignInResponse.zero,
                   lastSignin := (currentMillis (tokenAccessible a w).2).1,
                   lastAccess := (currentMillis (tokenAccessible a w).2).1 })) := by
  have hnext : w.nextSignIn = decodeResponse body := by
    unfold World.nextSignIn
    rw [hbody]
  refine ⟨decodeResponse_of_invalid body, decodeResponse_of_other body, ?_, ?_⟩
  · intro e he
    exact signIn_error_unchanged a w e (by rw [hnext, he])
  · intro hacc
    have hz : decodeResponse body = .ok SignInResponse.zero := by
      rcases hacc with hp | ⟨ms, hp, hms⟩
      · exact decodeResponse_of_null body hp
      · exact decodeResponse_no_envelope body ms hp hms
    have hs : SignIn a w = _ := signIn_of_ok a w SignInResponse.zero (by rw [hnext, hz])
    rw [hs]
    refine ⟨rfl, rfl, fun hna => ?_⟩
    have h2 : (tokenAccessible a w).2.nextSignIn = .ok SignInResponse.zero := by
      rw [nextSignIn_congr w _ (tokenAccessible_sent a w).1 (tokenAccessible_sent a w).2,
        hnext, hz]
    rw [GetToken_of_not_accessible a w hna, signIn_of_ok a _ SignInResponse.zero h2]
    exact ⟨rfl, rfl⟩

theorem signIn_decode_witness :
    (serviceWorld "<html>").net (serviceWorld "<html>").sent.length
      = .response (.ok "<html>") ∧
    parseJson "<html>" = none ∧
    (SignIn cachedClient (serviceWorld "<html>")).1 = some .jsonInvalid ∧
    (SignIn cachedClient (serviceWorld "<html>")).2.1 = cachedClient ∧
    parseJson "[]" = some (.arr []) ∧
    (SignIn cachedClient (serviceWorld "[]")).1 = some .jsonType ∧
    (SignIn cachedClient (serviceWorld "[]")).2.1 = cachedClient ∧
    parseJson "\x7b\x7d" = some (.obj []) ∧
    (SignIn cachedClient (serviceWorld "\x7b\x7d")).1 = none ∧
    (SignIn cachedClient (serviceWorld "\x7b\x7d")).2.1 =
      { cachedClient with token := "", signinResponse := SignInResponse.zero,
                          lastSignin := 1700000000000, lastAccess := 1700000000000 } :=
  ⟨rfl, by rfl,
   ((signIn_decode cachedClient (serviceWorld "<html>") "<html>" rfl).2.2.1 .jsonInvalid
      ((signIn_decode cachedClient (serviceWorld "<html>") "<html>" rfl).1
        (by rfl))).1.1,
   ((signIn_decode cachedClient (serviceWorld "<html>") "<html>" rfl).2.2.1 .jsonInvalid
      ((signIn_decode cachedClient (serviceWorld "<html>") "<html>" rfl).1
        (by rfl))).1.2,
   by rfl,
   ((signIn_decode cachedClient (serviceWorld "[]") "[]" rfl).2.2.1 .jsonType
      ((signIn_decode cachedClient (serviceWorld "[]") "[]" rfl).2.1 (.arr []) (by rfl)
        (fun _ h => Json.noConfusion h) (fun h => Json.noConfusion h))).1.1,
   ((signIn_decode cachedClient (serviceWorld "[]") "[]" rfl).2.2.1 .jsonType
      ((signIn_decode cachedClient (serviceWorld "[]") "[]" rfl).2.1 (.arr []) (by rfl)
        (fun _ h => Json.noConfusion h) (fun h => Json.noConfusion h))).1.2,
   by rfl,
   ((signIn_decode cachedClient (serviceWorld "\x7b\x7d") "\x7b\x7d" rfl).2.2.2
      (Or.inr ⟨[], by rfl, fun _ h => absurd h (List.not_mem_nil _)⟩)).1,
   ((signIn_decode cachedClient (serviceWorld "\x7b\x7d") "\x7b\x7d" rfl).2.2.2
      (Or.inr ⟨[], by rfl, fun _ h => absurd h (List.not_mem_nil _)⟩)).2.1⟩

theorem tokenAccessible_world (a : AuthClient) (w : World) (h : a.token ≠ "") :
    (tokenAccessible a w).2 = { w with reads := w.reads + 1 } := by
  unfold tokenAccessible currentMillis
  simp only [h, if_false]
  split_ifs <;> rfl

/-! ### Goroutines: the mutex -/

theorem run_append (s : System) (xs ys : List Nat) :
    s.run (xs ++ ys) = (s.run xs).run ys := by
  induction xs generalizing s with
  | nil => rfl
  | cons x xs ih => exact ih (s.step x)

theorem setPc_same (pcs : Nat → Pc) (i : Nat) (pc : Pc) : setPc pcs i pc i = pc := by
  simp [setPc]

theorem setPc_other (pcs : Nat → Pc) (i j : Nat) (pc : Pc) (h : j ≠ i) :
    setPc pcs i pc j = pcs j := by
  simp [setPc, h]

theorem step_waiting (s : System) (i : Nat) (hi : i < s.goroutines)
    (hpc : s.pcs i = .waiting) (hm : s.mutex = false) :
    s.step i = { s with mutex := true, pcs := setPc s.pcs i .entered } := by
  unfold System.step
  simp only [hi, if_true, hpc, hm, Bool.false_eq_true, if_false]

theorem step_entered (s : System) (i : Nat) (hi : i < s.goroutines)
    (hpc : s.pcs i = .entered) :
    s.step i =
      { s with world := (tokenAccessible s.client s.world).2,
               pcs := setPc s.pcs i
                 (if (tokenAccessible s.client s.world).1 then .hit else .miss) } := by
  unfold System.step
  simp only [hi, if_true, hpc]
  split_ifs <;> rfl

theorem step_hit (s : System) (i : Nat) (hi : i < s.goroutines) (hpc : s.pcs i = .hit) :
    s.step i =
      { s with client := { s.client with lastAccess := (currentMillis s.world).1 },
               world := (currentMillis s.world).2,
               pcs := setPc s.pcs i (.leaving (s.client.token, none)) } := by
  unfold System.step
  simp only [hi, if_true, hpc]

theorem step_miss (s : System) (i : Nat) (hi : i < s.goroutines) (hpc : s.pcs i = .miss) :
    s.step i =
      { s with client := (signIn s.client s.world).2.1,
               world := (signIn s.client s.world).2.2,
               pcs := setPc s.pcs i (.leaving
                 (match (signIn s.client s.world).1 with
                  | some err => ("", some err)
                  | none => ((signIn s.client s.world).2.1.token, none))) } := by
  unfold System.step
  simp only [hi, if_true, hpc]
  generalize signIn s.client s.world = p
  obtain ⟨e, a1, w1⟩ := p
  cases e <;> rfl

theorem step_leaving (s : System) (i : Nat) (hi : i < s.goroutines)
    (res : String × Option GoError) (hpc : s.pcs i = .leaving res) :
    s.step i = { s with mutex := false, pcs := setPc s.pcs i (.returned res) } := by
  unfold System.step
  simp only [hi, if_true, hpc]

theorem step_stuck (s : System) (i : Nat)
    (h : (s.pcs i = .waiting ∧ s.mutex = true) ∨ (∃ res, s.pcs i = .returned res) ∨
      ¬ i < s.goroutines) :
    s.step i = s := by
  unfold System.step
  by_cases hi : i < s.goroutines
  · simp only [hi, if_true]
    rcases h with ⟨h1, h2⟩ | ⟨res, h1⟩ | h1
    · simp only [h1, h2, if_true]
    · simp only [h1]
    · exact absurd hi h1
  · simp only [hi, if_false]

theorem step_goroutines (s : System) (i : Nat) : (s.step i).goroutines = s.goroutines := by
  by_cases hi : i < s.goroutines
  swap
  · rw [step_stuck s i (Or.inr (Or.inr hi))]
  cases hpc : s.pcs i with
  | waiting =>
    cases hm : s.mutex with
    | true => rw [step_stuck s i (Or.inl ⟨hpc, hm⟩)]
    | false => rw [step_waiting s i hi hpc hm]
  | entered => rw [step_entered s i hi hpc]
  | hit => rw [step_hit s i hi hpc]
  | miss => rw [step_miss s i hi hpc]
  | leaving res => rw [step_leaving s i hi res hpc]
  | returned res => rw [step_stuck s i (Or.inr (Or.inl ⟨res, hpc⟩))]

/-- A move of one goroutine leaves the others where they stand. -/
theorem step_other (s : System) (i j : Nat) (h : j ≠ i) : (s.step i).pcs j = s.pcs j := by
  by_cases hi : i < s.goroutines
  swap
  · rw [step_stuck s i (Or.inr (Or.inr hi))]
  cases hpc : s.pcs i with
  | waiting =>
    cases hm : s.mutex with
    | true => rw [step_stuck s i (Or.inl ⟨hpc, hm⟩)]
    | false => rw [step_waiting s i hi hpc hm]; exact setPc_other _ _ _ _ h
  | entered => rw [step_entered s i hi hpc]; exact setPc_other _ _ _ _ h
  | hit => rw [step_hit s i hi hpc]; exact setPc_other _ _ _ _ h
  | miss => rw [step_miss s i hi hpc]; exact setPc_other _ _ _ _ h
  | leaving res => rw [step_leaving s i hi res hpc]; exact setPc_other _ _ _ _ h
  | returned res => rw [step_stuck s i (Or.inr (Or.inl ⟨res, hpc⟩))]

/-- What a move does to the goroutine that makes it and to the mutex:
`Lock` on an unlocked mutex locks it, the statements up to `Unlock` leave it
locked, and `Unlock` unlocks it as the call returns. -/
theorem step_moves (s : System) (i : Nat) (hi : i < s.goroutines)
    (h : ((s.pcs i).inside = true ∧ s.mutex = true) ∨
      (s.pcs i = .waiting ∧ s.mutex = false)) :
    ((s.step i).pcs i).remaining + 1 = (s.pcs i).remaining ∧
    ((((s.step i).pcs i).inside = true ∧ (s.step i).mutex = true) ∨
      ((∃ res, (s.step i).pcs i = .returned res) ∧ (s.step i).mutex = false)) := by
  rcases h with ⟨hin, hm⟩ | ⟨hw, hm⟩
  · cases hpc : s.pcs i with
    | waiting => rw [hpc] at hin; simp [Pc.inside] at hin
    | returned res => rw [hpc] at hin; simp [Pc.inside] at hin
    | entered =>
      rw [step_entered s i hi hpc]
      simp only [setPc_same]
      split_ifs <;> simp [Pc.remaining, Pc.inside, hm]
    | hit =>
      rw [step_hit s i hi hpc]
      simp [setPc_same, Pc.remaining, Pc.inside, hm]
    | miss =>
      rw [step_miss s i hi hpc]
      simp [setPc_same, Pc.remaining, Pc.inside, hm]
    | leaving res =>
      rw [step_leaving s i hi res hpc]
      simp [setPc_same, Pc.remaining, Pc.inside]
  · rw [step_waiting s i hi hw hm, hw]
    simp [setPc_same, Pc.remaining, Pc.inside]

/-- Mutual exclusion is kept by every move. -/
theorem exclusive_step (s : System) (i : Nat) (h : s.exclusive) : (s.step i).exclusive := by
  by_cases hi : i < s.goroutines
  swap
  · rw [step_stuck s i (Or.inr (Or.inr hi))]; exact h
  unfold System.exclusive at h ⊢
  rw [step_goroutines]
  rcases h with ⟨hm, hall⟩ | ⟨hm, o, ho, hin, hrest⟩
  · -- the mutex is unlocked: goroutine i is at Lock or has returned
    cases hpc : s.pcs i with
    | waiting =>
      obtain ⟨_, hnext⟩ := step_moves s i hi (Or.inr ⟨hpc, hm⟩)
      rcases hnext with ⟨h1, h2⟩ | ⟨⟨res, h1⟩, h2⟩
      · refine Or.inr ⟨h2, i, hi, h1, fun j hj hji => ?_⟩
        rw [step_other s i j hji]; exact hall j hj
      · refine Or.inl ⟨h2, fun j hj => ?_⟩
        by_cases hji : j = i
        · rw [hji, h1]; rfl
        · rw [step_other s i j hji]; exact hall j hj
    | returned res =>
      rw [step_stuck s i (Or.inr (Or.inl ⟨res, hpc⟩))]
      exact Or.inl ⟨hm, hall⟩
    | entered => have := hall i hi; rw [hpc] at this; simp [Pc.inside] at this
    | hit => have := hall i hi; rw [hpc] at this; simp [Pc.inside] at this
    | miss => have := hall i hi; rw [hpc] at this; simp [Pc.inside] at this
    | leaving res => have := hall i hi; rw [hpc] at this; simp [Pc.inside] at this
  · -- the mutex is locked by goroutine o
    by_cases hio : i = o
    · subst hio
      obtain ⟨_, hnext⟩ := step_moves s i hi (Or.inl ⟨hin, hm⟩)
      rcases hnext with ⟨h1, h2⟩ | ⟨⟨res, h1⟩, h2⟩
      · refine Or.inr ⟨h2, i, hi, h1, fun j hj hji => ?_⟩
        rw [step_other s i j hji]; exact hrest j hj hji
      · refine Or.inl ⟨h2, fun j hj => ?_⟩
        by_cases hji : j = i
        · rw [hji, h1]; rfl
        · rw [step_other s i j hji]; exact hrest j hj hji
    · have hout := hrest i hi hio
      have hstuck : s.step i = s := by
        cases hpc : s.pcs i with
        | waiting => exact step_stuck s i (Or.inl ⟨hpc, hm⟩)
        | returned res => exact step_stuck s i (Or.inr (Or.inl ⟨res, hpc⟩))
        | entered => rw [hpc] at hout; simp [Pc.inside] at hout
        | hit => rw [hpc] at hout; simp [Pc.inside] at hout
        | miss => rw [hpc] at hout; simp [Pc.inside] at hout
        | leaving res => rw [hpc] at hout; simp [Pc.inside] at hout
      rw [hstuck]
      exact Or.inr ⟨hm, o, ho, hin, hrest⟩

theorem exclusive_start (n : Nat) (a : AuthClient) (w : World) :
    (System.start n a w).exclusive :=
  Or.inl ⟨rfl, fun _ _ => rfl⟩

theorem exclusive_run (s : System) (sched : List Nat) (h : s.exclusive) :
    (s.run sched).exclusive := by
  induction sched generalizing s with
  | nil => exact h
  | cons i sched ih => exact ih (s.step i) (exclusive_step s i h)

theorem run_goroutines (s : System) (sched : List Nat) :
    (s.run sched).goroutines = s.goroutines := by
  induction sched generalizing s with
  | nil => rfl
  | cons i sched ih => rw [System.run, ih, step_goroutines]

theorem not_inside_iff (pc : Pc) :
    pc.inside = false ↔ pc = .waiting ∨ ∃ res, pc = .returned res := by
  cases pc <;> simp [Pc.inside]

/-- A goroutine that nothing holds up returns within the moves it has left,
and leaves the mutex unlocked and the other goroutines where they stood. -/
theorem run_alone (k : Nat) :
    ∀ (s : System) (i : Nat), i < s.goroutines →
      (((s.pcs i).inside = true ∧ s.mutex = true) ∨
        (s.pcs i = .waiting ∧ s.mutex = false) ∨
        ((∃ res, s.pcs i = .returned res) ∧ s.mutex = false)) →
      (s.pcs i).remaining ≤ k →
      (s.run (List.replicate k i)).mutex = false ∧
      (∃ res, (s.run (List.replicate k i)).pcs i = .returned res) ∧
      (∀ j, j ≠ i → (s.run (List.replicate k i)).pcs j = s.pcs j) := by
  induction k with
  | zero =>
    intro s i _ h hk
    rcases h with ⟨hin, _⟩ | ⟨hw, _⟩ | ⟨hr, hm⟩
    · cases hpc : s.pcs i <;> rw [hpc] at hin hk <;> simp [Pc.inside, Pc.remaining] at hin hk
    · rw [hw] at hk; simp [Pc.remaining] at hk
    · exact ⟨hm, hr, fun _ _ => rfl⟩
  | succ k ih =>
    intro s i hi h hk
    rw [List.replicate_succ, System.run]
    have hi' : i < (s.step i).goroutines := by rw [step_goroutines]; exact hi
    rcases h with hin | hw | ⟨⟨res, hr⟩, hm⟩
    · obtain ⟨hrem, hnext⟩ := step_moves s i hi (Or.inl hin)
      obtain ⟨h1, h2, h3⟩ := ih (s.step i) i hi'
        (hnext.elim Or.inl (fun h => Or.inr (Or.inr h))) (by omega)
      exact ⟨h1, h2, fun j hj => by rw [h3 j hj, step_other s i j hj]⟩
    · obtain ⟨hrem, hnext⟩ := step_moves s i hi (Or.inr hw)
      obtain ⟨h1, h2, h3⟩ := ih (s.step i) i hi'
        (hnext.elim Or.inl (fun h => Or.inr (Or.inr h))) (by omega)
      exact ⟨h1, h2, fun j hj => by rw [h3 j hj, step_other s i j hj]⟩
    · have hst := step_stuck s i (Or.inr (Or.inl ⟨res, hr⟩))
      rw [hst]
      exact ih s i hi (Or.inr (Or.inr ⟨⟨res, hr⟩, hm⟩)) (by rw [hr]; simp [Pc.remaining])

/-- With the mutex unlocked, running the goroutines one after the other
brings each of them to its return. -/
theorem run_oneByOne (s : System)
    (hm : s.mutex = false) (hall : ∀ j, j < s.goroutines → (s.pcs j).inside = false) :
    ∀ m, m ≤ s.goroutines →
      (s.run (oneByOne m)).mutex = false ∧
      (∀ j, j < s.goroutines → ((s.run (oneByOne m)).pcs j).inside = false) ∧
      (∀ j, j < m → ∃ res, (s.run (oneByOne m)).pcs j = .returned res) := by
  intro m
  induction m with
  | zero => intro _; exact ⟨hm, hall, fun j hj => absurd hj (Nat.not_lt_zero j)⟩
  | succ m ih =>
    intro hle
    obtain ⟨h1, h2, h3⟩ := ih (by omega)
    have hg : (s.run (oneByOne m)).goroutines = s.goroutines := run_goroutines s _
    have hidle := (not_inside_iff _).mp (h2 m (by omega))
    have hone := run_alone 4 (s.run (oneByOne m)) m (by rw [hg]; omega)
      (hidle.elim (fun h => Or.inr (Or.inl ⟨h, h1⟩)) (fun h => Or.inr (Or.inr ⟨h, h1⟩)))
      (by rcases hidle with h | ⟨res, h⟩ <;> rw [h] <;> simp [Pc.remaining])
    have hrun : s.run (oneByOne (m + 1)) = (s.run (oneByOne m)).run (List.replicate 4 m) := by
      rw [oneByOne, run_append]
      rfl
    rw [hrun]
    obtain ⟨g1, ⟨res, g2⟩, g3⟩ := hone
    refine ⟨g1, fun j hj => ?_, fun j hj => ?_⟩
    · by_cases hjm : j = m
      · rw [hjm, g2]; rfl
      · rw [g3 j hjm]; exact h2 j hj
    · by_cases hjm : j = m
      · rw [hjm]; exact ⟨res, g2⟩
      · rw [g3 j hjm]; exact h3 j (by omega)

/-- No deadlock: from a state that keeps mutual exclusion, some schedule
brings every call to its return. -/
theorem exclusive_can_finish (s : System) (h : s.exclusive) :
    ∃ more, (s.run more).finished := by
  rcases h with ⟨hm, hall⟩ | ⟨hm, o, ho, hin, hrest⟩
  · refine ⟨oneByOne s.goroutines, ?_⟩
    obtain ⟨_, _, h3⟩ := run_oneByOne s hm hall s.goroutines (le_refl _)
    intro i hi
    rw [run_goroutines] at hi
    exact h3 i hi
  · have hrem : (s.pcs o).remaining ≤ 3 := by
      cases hpc : s.pcs o <;> rw [hpc] at hin <;> simp [Pc.inside, Pc.remaining] at hin ⊢
    obtain ⟨g1, ⟨res, g2⟩, g3⟩ := run_alone 3 s o ho (Or.inl ⟨hin, hm⟩) hrem
    have hg : (s.run (List.replicate 3 o)).goroutines = s.goroutines := run_goroutines s _
    have hall : ∀ j, j < (s.run (List.replicate 3 o)).goroutines →
        ((s.run (List.replicate 3 o)).pcs j).inside = false := by
      intro j hj
      rw [hg] at hj
      by_cases hjo : j = o
      · rw [hjo, g2]; rfl
      · rw [g3 j hjo]; exact hrest j hj hjo
    refine ⟨List.replicate 3 o ++ oneByOne s.goroutines, ?_⟩
    rw [run_append]
    obtain ⟨_, _, h3⟩ := run_oneByOne (s.run (List.replicate 3 o)) g1 hall s.goroutines
      (by rw [hg])
    intro i hi
    rw [run_goroutines, hg] at hi
    exact h3 i hi

/-- A goroutine that runs its four moves with no other in between does what
one call of `GetToken` does. -/
theorem run_alone_GetToken (s : System) (i : Nat) (hi : i < s.goroutines)
    (hpc : s.pcs i = .waiting) (hm : s.mutex = false) :
    (s.run [i, i, i, i]).client = (GetToken s.client s.world).2.1 ∧
    (s.run [i, i, i, i]).world = (GetToken s.client s.world).2.2 ∧
    (s.run [i, i, i, i]).pcs i = .returned (GetToken s.client s.world).1 ∧
    (s.run [i, i, i, i]).mutex = false := by
  simp only [System.run]
  rw [step_waiting s i hi hpc hm]
  have e2 := step_entered
    ({ s with mutex := true, pcs := setPc s.pcs i .entered } : System) i hi (setPc_same _ _ _)
  simp only at e2
  rw [e2]
  by_cases hacc : (tokenAccessible s.client s.world).1 = true
  · simp only [hacc, if_true]
    have e3 := step_hit
      ({ s with mutex := true, world := (tokenAccessible s.client s.world).2,
                pcs := setPc (setPc s.pcs i .entered) i .hit } : System) i hi (setPc_same _ _ _)
    simp only at e3
    rw [e3]
    have e4 := step_leaving
      ({ s with client := { s.client with
                  lastAccess := (currentMillis (tokenAccessible s.client s.world).2).1 },
                mutex := true,
                world := (currentMillis (tokenAccessible s.client s.world).2).2,
                pcs := setPc (setPc (setPc s.pcs i .entered) i .hit) i
                  (.leaving (s.client.token, none)) } : System) i hi _ (setPc_same _ _ _)
    simp only at e4
    rw [e4]
    simp only [setPc_same]
    rw [GetToken_of_accessible s.client s.world hacc]
    simp
  · have hacc' : (tokenAccessible s.client s.world).1 = false := by simpa using hacc
    simp only [hacc', Bool.false_eq_true, if_false]
    have e3 := step_miss
      ({ s with mutex := true, world := (tokenAccessible s.client s.world).2,
                pcs := setPc (setPc s.pcs i .entered) i .miss } : System) i hi (setPc_same _ _ _)
    simp only at e3
    rw [e3]
    rw [GetToken_of_not_accessible s.client s.world hacc']
    generalize signIn s.client (tokenAccessible s.client s.world).2 = p
    obtain ⟨e, a1, w1⟩ := p
    cases e with
    | none =>
      simp only
      have e4 := step_leaving
        ({ s with client := a1, mutex := true, world := w1,
                  pcs := setPc (setPc (setPc s.pcs i .entered) i .miss) i
                    (.leaving (a1.token, none)) } : System) i hi _ (setPc_same _ _ _)
      simp only at e4
      rw [e4]
      simp only [setPc_same]
      simp
    | some err =>
      simp only
      have e4 := step_leaving
        ({ s with client := a1, mutex := true, world := w1,
                  pcs := setPc (setPc (setPc s.pcs i .entered) i .miss) i
                    (.leaving ("", some err)) } : System) i hi _ (setPc_same _ _ _)
      simp only at e4
      rw [e4]
      simp only [setPc_same]
      simp

theorem setPc_before (pcs : Nat → Pc) (i n : Nat) (x : Pc)
    (hx : x = .waiting ∨ x = .entered ∨ x = .miss)
    (h : ∀ j, j < n → pcs j = .waiting ∨ pcs j = .entered ∨ pcs j = .miss) :
    ∀ j, j < n →
      setPc pcs i x j = .waiting ∨ setPc pcs i x j = .entered ∨ setPc pcs i x j = .miss := by
  intro j hj
  by_cases hji : j = i
  · rw [hji, setPc_same]; exact hx
  · rw [setPc_other _ _ _ _ hji]; exact h j hj

theorem setPc_after (res : String × Option GoError) (pcs : Nat → Pc) (i n : Nat) (x : Pc)
    (hx : x = .waiting ∨ x = .entered ∨ x = .hit ∨ x = .leaving res ∨ x = .returned res)
    (h : ∀ j, j < n → pcs j = .waiting ∨ pcs j = .entered ∨ pcs j = .hit ∨
      pcs j = .leaving res ∨ pcs j = .returned res) :
    ∀ j, j < n →
      setPc pcs i x j = .waiting ∨ setPc pcs i x j = .entered ∨ setPc pcs i x j = .hit ∨
      setPc pcs i x j = .leaving res ∨ setPc pcs i x j = .returned res := by
  intro j hj
  by_cases hji : j = i
  · rw [hji, setPc_same]; exact hx
  · rw [setPc_other _ _ _ _ hji]; exact h j hj

/-! ### Goroutines: one sign-in -/

/-- Inside the validity window of the token that the first sign-in stores,
`tokenAccessible` holds at every later reading of the clock. -/
theorem tokenAccessible_in_window (a0 : AuthClient) (w0 : World) (r : SignInResponse)
    (htok : r.Token ≠ "")
    (hclock : ∀ k, inInt64 (w0.clock k))
    (hwin : ∀ k, w0.reads ≤ k →
      Int.tdiv (w0.clock w0.reads) 1000000 ≤ Int.tdiv (w0.clock k) 1000000 ∧
      Int.tdiv (w0.clock k) 1000000
        ≤ Int.tdiv (w0.clock w0.reads) 1000000 + r.Duration - 3600000 ∧
      Int.tdiv (w0.clock k) 1000000
        ≤ Int.tdiv (w0.clock w0.reads) 1000000 + r.IdleTimeout - 3600000)
    (hD : Int.tdiv (w0.clock w0.reads) 1000000 + r.Duration - 3600000 < 2 ^ 63)
    (hI : ∀ k, w0.reads ≤ k → Int.tdiv (w0.clock k) 1000000 + r.IdleTimeout - 3600000 < 2 ^ 63)
    (k m : Nat) (hk : w0.reads ≤ k) (hm : w0.reads ≤ m) (sent : List Request) :
    tokenAccessible
      { a0 with token := r.Token, signinResponse := r,
                lastSignin := Int.tdiv (w0.clock w0.reads) 1000000,
                lastAccess := Int.tdiv (w0.clock k) 1000000 }
      { w0 with sent := sent, reads := m }
      = (true, { w0 with sent := sent, reads := m + 1 }) := by
  have hb := tdiv_million_bounds _ (hclock m)
  have h1 := hwin m hm
  have h2 := hwin k hk
  have h3 := hI k hk
  have hacc : (tokenAccessible
      { a0 with token := r.Token, signinResponse := r,
                lastSignin := Int.tdiv (w0.clock w0.reads) 1000000,
                lastAccess := Int.tdiv (w0.clock k) 1000000 }
      { w0 with sent := sent, reads := m }).1 = true := by
    refine (tokenAccessible_eq_true_iff _ _ ?_ ?_).mpr ⟨htok, ?_, ?_⟩
    · unfold inInt64; simp only; omega
    · unfold inInt64; simp only; omega
    · simp only [currentMillis]; omega
    · simp only [currentMillis]; omega
  have hw := tokenAccessible_world
      { a0 with token := r.Token, signinResponse := r,
                lastSignin := Int.tdiv (w0.clock w0.reads) 1000000,
                lastAccess := Int.tdiv (w0.clock k) 1000000 }
      { w0 with sent := sent, reads := m } htok
  exact Prod.ext hacc hw

/-- The state of the cache and of the calls is kept by every move: the sign-in
is sent by the first goroutine that gets the mutex and by no other. -/
theorem singleSignIn_step (a0 : AuthClient) (w0 : World) (r : SignInResponse)
    (s : System) (i : Nat)
    (ha0 : a0.token = "")
    (hresp : w0.nextSignIn = .ok r)
    (htok : r.Token ≠ "")
    (hclock : ∀ k, inInt64 (w0.clock k))
    (hwin : ∀ k, w0.reads ≤ k →
      Int.tdiv (w0.clock w0.reads) 1000000 ≤ Int.tdiv (w0.clock k) 1000000 ∧
      Int.tdiv (w0.clock k) 1000000
        ≤ Int.tdiv (w0.clock w0.reads) 1000000 + r.Duration - 3600000 ∧
      Int.tdiv (w0.clock k) 1000000
        ≤ Int.tdiv (w0.clock w0.reads) 1000000 + r.IdleTimeout - 3600000)
    (hD : Int.tdiv (w0.clock w0.reads) 1000000 + r.Duration - 3600000 < 2 ^ 63)
    (hI : ∀ k, w0.reads ≤ k → Int.tdiv (w0.clock k) 1000000 + r.IdleTimeout - 3600000 < 2 ^ 63)
    (hE : s.exclusive) (h : s.singleSignIn a0 w0 r) :
    (s.step i).singleSignIn a0 w0 r := by
  by_cases hi : i < s.goroutines
  swap
  · rw [step_stuck s i (Or.inr (Or.inr hi))]; exact h
  unfold System.singleSignIn at h ⊢
  rw [step_goroutines]
  rcases h with ⟨hc, hw, hall⟩ | ⟨k, m, hk, hm, hc, hw, hall⟩
  · -- nothing was sent yet
    cases hpc : s.pcs i with
    | waiting =>
      cases hmx : s.mutex with
      | true => rw [step_stuck s i (Or.inl ⟨hpc, hmx⟩)]; exact Or.inl ⟨hc, hw, hall⟩
      | false =>
        rw [step_waiting s i hi hpc hmx]
        exact Or.inl ⟨hc, hw, setPc_before _ _ _ _ (Or.inr (Or.inl rfl)) hall⟩
    | entered =>
      rw [step_entered s i hi hpc, hc, hw, tokenAccessible_empty a0 w0 ha0]
      exact Or.inl ⟨rfl, rfl, setPc_before _ _ _ _ (Or.inr (Or.inr rfl)) hall⟩
    | miss =>
      -- the other goroutines are all at Lock
      have hothers : ∀ j, j < s.goroutines → j ≠ i → s.pcs j = .waiting := by
        intro j hj hji
        have hout : (s.pcs j).inside = false := by
          rcases hE with ⟨_, hfree⟩ | ⟨_, o, _, _, hrest⟩
          · have := hfree i hi; rw [hpc] at this; simp [Pc.inside] at this
          · by_cases hio : i = o
            · exact hrest j hj (by rw [← hio]; exact hji)
            · have := hrest i hi hio; rw [hpc] at this; simp [Pc.inside] at this
        rcases hall j hj with h1 | h1 | h1
        · exact h1
        · rw [h1] at hout; simp [Pc.inside] at hout
        · rw [h1] at hout; simp [Pc.inside] at hout
      rw [step_miss s i hi hpc, hc, hw, signIn_of_ok a0 w0 r hresp]
      refine Or.inr ⟨w0.reads, w0.reads + 1, le_refl _, Nat.lt_succ_self _, rfl, rfl, ?_⟩
      intro j hj
      by_cases hji : j = i
      · rw [hji]; simp [setPc_same]
      · simp only [setPc_other _ _ _ _ hji]
        exact Or.inl (hothers j hj hji)
    | hit => rcases hall i hi with h1 | h1 | h1 <;> rw [hpc] at h1 <;> simp at h1
    | leaving res => rcases hall i hi with h1 | h1 | h1 <;> rw [hpc] at h1 <;> simp at h1
    | returned res => rcases hall i hi with h1 | h1 | h1 <;> rw [hpc] at h1 <;> simp at h1
  · -- the sign-in was sent and stored
    cases hpc : s.pcs i with
    | waiting =>
      cases hmx : s.mutex with
      | true =>
        rw [step_stuck s i (Or.inl ⟨hpc, hmx⟩)]
        exact Or.inr ⟨k, m, hk, hm, hc, hw, hall⟩
      | false =>
        rw [step_waiting s i hi hpc hmx]
        exact Or.inr ⟨k, m, hk, hm, hc, hw,
          setPc_after _ _ _ _ _ (Or.inr (Or.inl rfl)) hall⟩
    | entered =>
      rw [step_entered s i hi hpc, hc, hw,
        tokenAccessible_in_window a0 w0 r htok hclock hwin hD hI k m hk (by omega)]
      refine Or.inr ⟨k, m + 1, hk, by omega, rfl, rfl, ?_⟩
      exact setPc_after _ _ _ _ _ (Or.inr (Or.inr (Or.inl rfl))) hall
    | hit =>
      rw [step_hit s i hi hpc, hc, hw]
      refine Or.inr ⟨m, m + 1, by omega, by omega, rfl, rfl, ?_⟩
      exact setPc_after _ _ _ _ _ (Or.inr (Or.inr (Or.inr (Or.inl rfl)))) hall
    | miss =>
      rcases hall i hi with h1 | h1 | h1 | h1 | h1 <;> rw [hpc] at h1 <;> simp at h1
    | leaving res =>
      have hres : res = (r.Token, none) := by
        rcases hall i hi with h1 | h1 | h1 | h1 | h1 <;> rw [hpc] at h1 <;> simp at h1
        exact h1
      rw [step_leaving s i hi res hpc, hres]
      refine Or.inr ⟨k, m, hk, hm, hc, hw, ?_⟩
      exact setPc_after _ _ _ _ _ (Or.inr (Or.inr (Or.inr (Or.inr rfl)))) hall
    | returned res =>
      rw [step_stuck s i (Or.inr (Or.inl ⟨res, hpc⟩))]
      exact Or.inr ⟨k, m, hk, hm, hc, hw, hall⟩

theorem singleSignIn_run (a0 : AuthClient) (w0 : World) (r : SignInResponse)
    (ha0 : a0.token = "")
    (hresp : w0.nextSignIn = .ok r)
    (htok : r.Token ≠ "")
    (hclock : ∀ k, inInt64 (w0.clock k))
    (hwin : ∀ k, w0.reads ≤ k →
      Int.tdiv (w0.clock w0.reads) 1000000 ≤ Int.tdiv (w0.clock k) 1000000 ∧
      Int.tdiv (w0.clock k) 1000000
        ≤ Int.tdiv (w0.clock w0.reads) 1000000 + r.Duration - 3600000 ∧
      Int.tdiv (w0.clock k) 1000000
        ≤ Int.tdiv (w0.clock w0.reads) 1000000 + r.IdleTimeout - 3600000)
    (hD : Int.tdiv (w0.clock w0.reads) 1000000 + r.Duration - 3600000 < 2 ^ 63)
    (hI : ∀ k, w0.reads ≤ k → Int.tdiv (w0.clock k) 1000000 + r.IdleTimeout - 3600000 < 2 ^ 63)
    (sched : List Nat) :
    ∀ s : System, s.exclusive → s.singleSignIn a0 w0 r →
      (s.run sched).singleSignIn a0 w0 r := by
  induction sched with
  | nil => intro s _ h; exact h
  | cons i sched ih =>
    intro s hE h
    exact ih (s.step i) (exclusive_step s i hE)
      (singleSignIn_step a0 w0 r s i ha0 hresp htok hclock hwin hD hI hE h)

theorem singleSignIn_start (n : Nat) (a0 : AuthClient) (w0 : World) (r : SignInResponse) :
    (System.start n a0 w0).singleSignIn a0 w0 r :=
  Or.inl ⟨rfl, rfl, fun _ _ => Or.inl rfl⟩

/-- C9 fails as stated: two goroutines call `GetToken` on a fresh client and
both calls return, yet two sign-in requests are sent, when the identity
service answers each sign-in with token `abc`, duration 1000000 and idle
timeout 900000, when it answers with durations of the largest `int64`, when
it answers with a body that holds no token, and when every request fails in
the transport. -/
theorem two_goroutines_two_signIns :
    ((System.start 2 freshClient (serviceWorld shortLivedBody)).run
        [1, 0, 0, 1, 1, 0, 1, 1, 0, 0, 0, 0]).pcs 0 = .returned ("abc", none) ∧
    ((System.start 2 freshClient (serviceWorld shortLivedBody)).run
        [1, 0, 0, 1, 1, 0, 1, 1, 0, 0, 0, 0]).pcs 1 = .returned ("abc", none) ∧
    ((System.start 2 freshClient (serviceWorld shortLivedBody)).run
        [1, 0, 0, 1, 1, 0, 1, 1, 0, 0, 0, 0]).world.signInCalls = 2 ∧
    ((System.start 2 freshClient (serviceWorld longLivedBody)).run
        [1, 0, 0, 1, 1, 0, 1, 1, 0, 0, 0, 0]).pcs 0 = .returned ("abc", none) ∧
    ((System.start 2 freshClient (serviceWorld longLivedBody)).run
        [1, 0, 0, 1, 1, 0, 1, 1, 0, 0, 0, 0]).world.signInCalls = 2 ∧
    ((System.start 2 freshClient (serviceWorld "\x7b\x7d")).run
        [1, 0, 0, 1, 1, 0, 1, 1, 0, 0, 0, 0]).pcs 0 = .returned ("", none) ∧
    ((System.start 2 freshClient (serviceWorld "\x7b\x7d")).run
        [1, 0, 0, 1, 1, 0, 1, 1, 0, 0, 0, 0]).world.signInCalls = 2 ∧
    ((System.start 2 freshClient
        (constWorld 1700000000000000000 (.failed (.transport "down")))).run
        [1, 0, 0, 1, 1, 0, 1, 1, 0, 0, 0, 0]).pcs 0
      = .returned ("", some (.transport "down")) ∧
    ((System.start 2 freshClient
        (constWorld 1700000000000000000 (.failed (.transport "down")))).run
        [1, 0, 0, 1, 1, 0, 1, 1, 0, 0, 0, 0]).pcs 1
      = .returned ("", some (.transport "down")) ∧
    ((System.start 2 freshClient
        (constWorld 1700000000000000000 (.failed (.transport "down")))).run
        [1, 0, 0, 1, 1, 0, 1, 1, 0, 0, 0, 0]).world.signInCalls = 2 := by
  set_option maxRecDepth 100000 in decide

/-- C9, as the code has it: let `n ≥ 1` goroutines call `GetToken` on a client
fresh from `New`, their moves interleaved in any order, and let the first
sign-in be answered at time T with a token that is not empty and durations D
and I.  If every clock reading is an `int64` and shows a time `t` with
`T ≤ t ≤ T + D - 3600000` and `t ≤ T + I - 3600000`, and no deadline sum
exceeds the largest `int64`, then at every moment at most one goroutine is
between `Lock` and `Unlock` and at most one request has been sent, the calls
can all be brought to their return, and once they have all returned exactly
one request was sent, a sign-in, and every call has returned its token with no
error. -/
theorem getToken_concurrent_single_signIn (n : Nat) (user password idmServiceUrl : String)
    (w : World) (r : SignInResponse) (sched : List Nat)
    (hn : 1 ≤ n)
    (hresp : w.nextSignIn = .ok r)
    (htok : r.Token ≠ "")
    (hclock : ∀ k, inInt64 (w.clock k))
    (hwin : ∀ k, w.reads ≤ k →
      Int.tdiv (w.clock w.reads) 1000000 ≤ Int.tdiv (w.clock k) 1000000 ∧
      Int.tdiv (w.clock k) 1000000
        ≤ Int.tdiv (w.clock w.reads) 1000000 + r.Duration - 3600000 ∧
      Int.tdiv (w.clock k) 1000000
        ≤ Int.tdiv (w.clock w.reads) 1000000 + r.IdleTimeout - 3600000)
    (hD : Int.tdiv (w.clock w.reads) 1000000 + r.Duration - 3600000 < 2 ^ 63)
    (hI : ∀ k, w.reads ≤ k →
      Int.tdiv (w.clock k) 1000000 + r.IdleTimeout - 3600000 < 2 ^ 63) :
    ((System.start n (New user password idmServiceUrl).1 w).run sched).exclusive ∧
    (((System.start n (New user password idmServiceUrl).1 w).run sched).world.sent = w.sent ∨
      ((System.start n (New user password idmServiceUrl).1 w).run sched).world.sent
        = w.sent ++ [signInRequest (New user password idmServiceUrl).1]) ∧
    (∃ more,
      (((System.start n (New user password idmServiceUrl).1 w).run sched).run more).finished) ∧
    (((System.start n (New user password idmServiceUrl).1 w).run sched).finished →
      ((System.start n (New user password idmServiceUrl).1 w).run sched).world.sent
        = w.sent ++ [signInRequest (New user password idmServiceUrl).1] ∧
      ((System.start n (New user password idmServiceUrl).1 w).run sched).world.signInCalls
        = w.signInCalls + 1 ∧
      ∀ i, i < n →
        ((System.start n (New user password idmServiceUrl).1 w).run sched).pcs i
          = .returned (r.Token, none)) := by
  have hempty : (New user password idmServiceUrl).1.token = "" := rfl
  generalize (New user password idmServiceUrl).1 = a0 at *
  have hE := exclusive_run _ sched (exclusive_start n a0 w)
  have hS := singleSignIn_run a0 w r hempty hresp htok hclock hwin hD hI sched _
    (exclusive_start n a0 w) (singleSignIn_start n a0 w r)
  have hg : ((System.start n a0 w).run sched).goroutines = n := run_goroutines _ sched
  generalize (System.start n a0 w).run sched = s at *
  refine ⟨hE, ?_, exclusive_can_finish s hE, ?_⟩
  · rcases hS with ⟨_, hw, _⟩ | ⟨k, m, _, _, _, hw, _⟩
    · exact Or.inl (by rw [hw])
    · exact Or.inr (by rw [hw])
  · intro hfin
    obtain ⟨res0, h0⟩ := hfin 0 (by omega)
    rcases hS with ⟨_, _, hall⟩ | ⟨k, m, _, _, _, hw, hall⟩
    · rcases hall 0 (by omega) with h1 | h1 | h1 <;> rw [h0] at h1 <;> simp at h1
    · have hsent : s.world.sent = w.sent ++ [signInRequest a0] := by rw [hw]
      refine ⟨hsent, ?_, ?_⟩
      · unfold World.signInCalls
        rw [hsent]
        simp [signInRequest, Request.isSignIn]
      · intro i hi
        obtain ⟨res, hres⟩ := hfin i (by omega)
        rcases hall i (by omega) with h1 | h1 | h1 | h1 | h1
        · rw [hres] at h1; simp at h1
        · rw [hres] at h1; simp at h1
        · rw [hres] at h1; simp at h1
        · rw [hres] at h1; simp at h1
        · exact h1

theorem getToken_concurrent_single_signIn_witness :
    (1 : Nat) ≤ 3 ∧
    (serviceWorld sampleResponse).nextSignIn
      = .ok ⟨"Q4ppbgqEymry1Ml4g4v8sSCeoIC8sICC", 315360000000, 14400000,
          "admin@theplatform.com",
          "http://stg-admin.identity.auth.theplatform.com/idm/data/User/mps/1150127438"⟩ ∧
    ((System.start 3 (New "user" "secret" "http://idm").1 (serviceWorld sampleResponse)).run
        [2, 0, 2, 1, 2, 2, 0, 1, 0, 0, 1, 0, 1, 1, 1, 1]).world.sent
      = (serviceWorld sampleResponse).sent
          ++ [signInRequest (New "user" "secret" "http://idm").1] ∧
    ∀ i, i < 3 →
      ((System.start 3 (New "user" "secret" "http://idm").1
          (serviceWorld sampleResponse)).run
          [2, 0, 2, 1, 2, 2, 0, 1, 0, 0, 1, 0, 1, 1, 1, 1]).pcs i
        = .returned ("Q4ppbgqEymry1Ml4g4v8sSCeoIC8sICC", none) :=
  have hfin : ((System.start 3 (New "user" "secret" "http://idm").1
      (serviceWorld sampleResponse)).run
      [2, 0, 2, 1, 2, 2, 0, 1, 0, 0, 1, 0, 1, 1, 1, 1]).finished := by
    intro i hi
    rw [run_goroutines] at hi
    have hi3 : i < 3 := hi
    interval_cases i
    · exact ⟨("Q4ppbgqEymry1Ml4g4v8sSCeoIC8sICC", none),
        by set_option maxRecDepth 100000 in decide⟩
    · exact ⟨("Q4ppbgqEymry1Ml4g4v8sSCeoIC8sICC", none),
        by set_option maxRecDepth 100000 in decide⟩
    · exact ⟨("Q4ppbgqEymry1Ml4g4v8sSCeoIC8sICC", none),
        by set_option maxRecDepth 100000 in decide⟩
  have hall := (getToken_concurrent_single_signIn 3 "user" "secret" "http://idm"
      (serviceWorld sampleResponse)
      ⟨"Q4ppbgqEymry1Ml4g4v8sSCeoIC8sICC", 315360000000, 14400000,
          "admin@theplatform.com",
          "http://stg-admin.identity.auth.theplatform.com/idm/data/User/mps/1150127438"⟩
      [2, 0, 2, 1, 2, 2, 0, 1, 0, 0, 1, 0, 1, 1, 1, 1]
      (by decide)
      (by set_option maxRecDepth 100000 in decide)
      (by decide)
      (fun _ => (by decide : inInt64 1700000000000000000))
      (fun _ _ => (by decide :
        Int.tdiv 1700000000000000000 1000000 ≤ Int.tdiv 1700000000000000000 1000000 ∧
        Int.tdiv 1700000000000000000 1000000
          ≤ Int.tdiv 1700000000000000000 1000000 + 315360000000 - 3600000 ∧
        Int.tdiv 1700000000000000000 1000000
          ≤ Int.tdiv 1700000000000000000 1000000 + 14400000 - 3600000))
      (by decide)
      (fun _ _ => (by decide :
        Int.tdiv 1700000000000000000 1000000 + 14400000 - 3600000 < (2 : Int) ^ 63))).2.2.2 hfin
  ⟨by decide, by set_option maxRecDepth 100000 in decide, hall.1, hall.2.2⟩

/-! ### White space and string literals -/

theorem skipSpace_append (ws rest : List Char) (h : ∀ c ∈ ws, isSpace c = true) :
    skipSpace (ws ++ rest) = skipSpace rest := by
  induction ws with
  | nil => rfl
  | cons c cs ih =>
    have hc := h c (List.mem_cons_self _ _)
    simp only [List.cons_append, skipSpace, hc, if_true]
    exact ih (fun d hd => h d (List.mem_cons_of_mem _ hd))

theorem skipSpace_cons (c : Char) (rest : List Char) (h : isSpace c = false) :
    skipSpace (c :: rest) = c :: rest := by
  simp [skipSpace, h]

theorem skipSpace_append_cons (ws : List Char) (c : Char) (rest : List Char)
    (h : ∀ d ∈ ws, isSpace d = true) (hc : isSpace c = false) :
    skipSpace (ws ++ (c :: rest)) = c :: rest := by
  rw [skipSpace_append ws _ h, skipSpace_cons c rest hc]

theorem hexVal_digitChar (k : Nat) (h : k < 16) : hexVal (Nat.digitChar k) = some k := by
  interval_cases k <;> decide

theorem scanString_quote (rest : List Char) : scanString ('"' :: rest) = some ([], rest) := by
  rw [scanString.eq_def]
  simp

theorem scanString_plain (c : Char) (tail : List Char)
    (h1 : c ≠ '"') (h2 : c ≠ '\\') (h3 : ¬ c.toNat < 32) :
    scanString (c :: tail) = consUnit (.lit c) (scanString tail) := by
  rw [scanString.eq_def]
  simp [h1, h2, h3]

theorem scanString_simple (e x : Char) (tail : List Char)
    (he : e ≠ 'u') (hx : simpleEscape e = some x) :
    scanString ('\\' :: e :: tail) = consUnit (.lit x) (scanString tail) := by
  rw [scanString.eq_def]
  simp [he, hx]

theorem scanString_hex (h3 h4 : Char) (x3 x4 : Nat) (tail : List Char)
    (e3 : hexVal h3 = some x3) (e4 : hexVal h4 = some x4) :
    scanString ('\\' :: 'u' :: '0' :: '0' :: h3 :: h4 :: tail)
      = consUnit (.u16 (x3 * 16 + x4)) (scanString tail) := by
  have h0 : hexVal '0' = some 0 := by decide
  rw [scanString.eq_def]
  simp [e3, e4, h0]

theorem decodeUnits_low (n : Nat) (us : List StrUnit) (h : n < 32) :
    decodeUnits (.u16 n :: us) = Char.ofNat n :: decodeUnits us := by
  rw [decodeUnits.eq_def]
  have : ¬ (0xD800 ≤ n ∧ n < 0xE000) := by omega
  simp [this]

theorem scanString_escapeChar (c : Char) (tail : List Char) :
    ∃ u, scanString (escapeChar c ++ tail) = consUnit u (scanString tail) ∧
      ∀ us, decodeUnits (u :: us) = c :: decodeUnits us := by
  unfold escapeChar
  by_cases h1 : c = '"'
  · subst h1
    exact ⟨.lit '"', scanString_simple '"' '"' tail (by decide) (by decide), fun us => rfl⟩
  · by_cases h2 : c = '\\'
    · subst h2
      exact ⟨.lit '\\', scanString_simple '\\' '\\' tail (by decide) (by decide),
        fun us => rfl⟩
    · by_cases h3 : c.toNat < 32
      · refine ⟨.u16 c.toNat, ?_, fun us => ?_⟩
        · have hq : c.toNat / 16 < 16 := by omega
          have hr : c.toNat % 16 < 16 := Nat.mod_lt _ (by norm_num)
          simp only [h1, h2, h3, if_true, if_false, List.cons_append, List.nil_append]
          rw [scanString_hex _ _ _ _ tail (hexVal_digitChar _ hq) (hexVal_digitChar _ hr)]
          congr 2
          omega
        · rw [decodeUnits_low _ _ h3, Char.ofNat_toNat]
      · refine ⟨.lit c, ?_, fun us => rfl⟩
        simp only [h1, h2, h3, if_false, List.cons_append, List.nil_append]
        exact scanString_plain c tail h1 h2 h3

theorem scanString_escapeChars (s rest : List Char) :
    ∃ us, scanString (escapeChars s ++ ('"' :: rest)) = some (us, rest) ∧
      decodeUnits us = s := by
  induction s with
  | nil => exact ⟨[], scanString_quote rest, rfl⟩
  | cons c cs ih =>
    obtain ⟨us, hs, hd⟩ := ih
    obtain ⟨u, hu, hdu⟩ := scanString_escapeChar c (escapeChars cs ++ ('"' :: rest))
    refine ⟨u :: us, ?_, ?_⟩
    · rw [escapeChars, List.append_assoc, hu, hs]
      rfl
    · rw [hdu, hd]

/-! ### Number literals -/

theorem digitChar_facts (k : Nat) (h : k < 10) :
    isDigit (Nat.digitChar k) = true ∧ (Nat.digitChar k).toNat - 48 = k ∧
    (Nat.digitChar k = '0' ↔ k = 0) ∧ Nat.digitChar k ≠ '-' := by
  interval_cases k <;> decide

/-- The digits that `Nat.toDigitsCore` puts before its accumulator: they are
decimal digits, they denote `n`, and they start with a zero only for `n = 0`,
where they are a single zero. -/
theorem toDigitsCore_spec (fuel : Nat) :
    ∀ (n : Nat) (ds : List Char), n < fuel →
      ∃ c cs, Nat.toDigitsCore 10 fuel n ds = (c :: cs) ++ ds ∧
        (∀ x ∈ c :: cs, isDigit x = true) ∧
        (c :: cs).foldl (fun acc x => 10 * acc + (x.toNat - 48)) 0 = n ∧
        (c = '0' → n = 0 ∧ cs = []) := by
  induction fuel with
  | zero => intro n ds h; omega
  | succ fuel ih =>
    intro n ds h
    have hm : n % 10 < 10 := Nat.mod_lt _ (by norm_num)
    obtain ⟨hd1, hd2, hd3, -⟩ := digitChar_facts (n % 10) hm
    unfold Nat.toDigitsCore
    by_cases h0 : n / 10 = 0
    · simp only [h0, if_true]
      have hn : n % 10 = n := by omega
      refine ⟨Nat.digitChar (n % 10), [], rfl, ?_, ?_, ?_⟩
      · intro x hx
        simp only [List.mem_singleton] at hx
        rw [hx]; exact hd1
      · simp only [List.foldl_cons, List.foldl_nil]
        omega
      · intro hc
        exact ⟨by have := hd3.mp hc; omega, rfl⟩
    · simp only [h0, if_false]
      obtain ⟨c, cs, he, hall, hval, hz⟩ := ih (n / 10) (Nat.digitChar (n % 10) :: ds) (by omega)
      refine ⟨c, cs ++ [Nat.digitChar (n % 10)], ?_, ?_, ?_, ?_⟩
      · rw [he]; simp
      · intro x hx
        rw [← List.cons_append, List.mem_append] at hx
        rcases hx with hx | hx
        · exact hall x hx
        · simp only [List.mem_singleton] at hx
          rw [hx]; exact hd1
      · rw [← List.cons_append, List.foldl_append, hval]
        simp only [List.foldl_cons, List.foldl_nil]
        omega
      · intro hc
        exact absurd (hz hc).1 h0

theorem toDigits_spec (n : Nat) :
    ∃ c cs, Nat.toDigits 10 n = c :: cs ∧
      (∀ x ∈ c :: cs, isDigit x = true) ∧
      (c :: cs).foldl (fun acc x => 10 * acc + (x.toNat - 48)) 0 = n ∧
      (c = '0' → n = 0 ∧ cs = []) := by
  obtain ⟨c, cs, he, h⟩ := toDigitsCore_spec (n + 1) n [] (Nat.lt_succ_self n)
  exact ⟨c, cs, by rw [Nat.toDigits, he, List.append_nil], h⟩

theorem parseDigits_toDigits (n : Nat) : parseDigits (Nat.toDigits 10 n) = some n := by
  obtain ⟨c, cs, he, hall, hval, -⟩ := toDigits_spec n
  unfold parseDigits
  rw [he]
  have h1 : (c :: cs).all isDigit = true := List.all_eq_true.mpr hall
  simp only [ne_eq, reduceCtorEq, not_false_eq_true, h1, and_self, if_true, hval]

theorem takeDigits_append (ds rest : List Char) (h : ∀ x ∈ ds, isDigit x = true)
    (hr : numberEnds rest) : takeDigits (ds ++ rest) = (ds, rest) := by
  induction ds with
  | nil =>
    cases rest with
    | nil => rfl
    | cons c cs =>
      have := (hr c cs rfl).1
      simp [takeDigits, this]
  | cons d ds ih =>
    have hd := h d (List.mem_cons_self _ _)
    have := ih (fun x hx => h x (List.mem_cons_of_mem _ hx))
    simp [takeDigits, hd, this]

theorem scanFrac_ends (rest : List Char) (hr : numberEnds rest) :
    scanFrac rest = some ([], rest) := by
  cases rest with
  | nil => rfl
  | cons c cs =>
    have := (hr c cs rfl).2.1
    simp [scanFrac, this]

theorem scanExp_ends (rest : List Char) (hr : numberEnds rest) :
    scanExp rest = some ([], rest) := by
  cases rest with
  | nil => rfl
  | cons c cs =>
    have h := hr c cs rfl
    simp [scanExp, h.2.2.1, h.2.2.2]

theorem scanUnsigned_toDigits (n : Nat) (rest : List Char) (hr : numberEnds rest) :
    scanUnsigned (Nat.toDigits 10 n ++ rest) = some (Nat.toDigits 10 n, rest) := by
  obtain ⟨c, cs, he, hall, -, hz⟩ := toDigits_spec n
  have hint : scanInt (Nat.toDigits 10 n ++ rest) = some (Nat.toDigits 10 n, rest) := by
    rw [he, List.cons_append]
    unfold scanInt
    by_cases hc : c = '0'
    · have hcs := (hz hc).2
      subst hcs
      simp [hc]
    · have hd := hall c (List.mem_cons_self _ _)
      have ht := takeDigits_append cs rest
        (fun x hx => hall x (List.mem_cons_of_mem _ hx)) hr
      simp [hc, hd, ht]
  unfold scanUnsigned
  rw [hint]
  simp only
  rw [scanFrac_ends rest hr]
  simp only
  rw [scanExp_ends rest hr]
  simp

theorem digit_not_special (c : Char) (h : isDigit c = true ∨ c = '-') :
    isSpace c = false ∧ c ≠ '{' ∧ c ≠ '[' ∧ c ≠ '"' ∧ c ≠ 't' ∧ c ≠ 'f' ∧ c ≠ 'n' := by
  rcases h with h | h
  · refine ⟨?_, ?_, ?_, ?_, ?_, ?_, ?_⟩
    · cases hs : isSpace c with
      | false => rfl
      | true =>
        simp only [isSpace, Bool.or_eq_true, decide_eq_true_eq] at hs
        rcases hs with ((hs | hs) | hs) | hs <;> (rw [hs] at h; exact absurd h (by decide))
    all_goals (intro hc; rw [hc] at h; exact absurd h (by decide))
  · subst h
    decide

theorem intLiteral_head (d : Int) :
    ∃ c cs, intLiteral d = c :: cs ∧ (isDigit c = true ∨ c = '-') := by
  unfold intLiteral
  by_cases hd : d < 0
  · simp only [hd, if_true]
    exact ⟨'-', _, rfl, Or.inr rfl⟩
  · simp only [hd, if_false]
    obtain ⟨c, cs, he, hall, -, -⟩ := toDigits_spec d.toNat
    exact ⟨c, cs, he, Or.inl (hall c (List.mem_cons_self _ _))⟩

theorem scanNumber_intLiteral (d : Int) (rest : List Char) (hr : numberEnds rest) :
    scanNumber (intLiteral d ++ rest) = some (intLiteral d, rest) := by
  unfold intLiteral
  by_cases hd : d < 0
  · simp only [hd, if_true, List.cons_append]
    unfold scanNumber
    simp only [if_true]
    rw [scanUnsigned_toDigits _ rest hr]
  · simp only [hd, if_false]
    obtain ⟨c, cs, he, hall, -, -⟩ := toDigits_spec d.toNat
    have hc : c ≠ '-' := by
      intro h
      have := hall c (List.mem_cons_self _ _)
      rw [h] at this
      exact absurd this (by decide)
    have hs := scanUnsigned_toDigits d.toNat rest hr
    rw [he] at hs ⊢
    rw [List.cons_append] at hs ⊢
    unfold scanNumber
    simp only [hc, if_false]
    exact hs

theorem parseInt64_intLiteral (d : Int) (h : inInt64 d) :
    parseInt64 (intLiteral d) = some d := by
  unfold inInt64 at h
  unfold intLiteral
  by_cases hd : d < 0
  · simp only [hd, if_true]
    unfold parseInt64
    simp only [if_true]
    rw [parseDigits_toDigits]
    have h1 : d.natAbs ≤ 2 ^ 63 := by omega
    simp only [h1, if_true]
    congr 1
    omega
  · simp only [hd, if_false]
    obtain ⟨c, cs, he, hall, -, -⟩ := toDigits_spec d.toNat
    have hc : c ≠ '-' := by
      intro h
      have := hall c (List.mem_cons_self _ _)
      rw [h] at this
      exact absurd this (by decide)
    have hp := parseDigits_toDigits d.toNat
    rw [he] at hp ⊢
    unfold parseInt64
    simp only [hc, if_false]
    rw [hp]
    have h1 : d.toNat < 2 ^ 63 := by omega
    simp only [h1, if_true]
    congr 1
    omega

/-! ### Values and members -/

theorem parseValue_string (fuel depth : Nat) (ws : List Char) (s : String) (rest : List Char)
    (hws : ∀ c ∈ ws, isSpace c = true) :
    parseValue (fuel + 1) depth (ws ++ (stringLiteral s ++ rest)) = some (.str s.data, rest) := by
  obtain ⟨us, hs, hd⟩ := scanString_escapeChars s.data rest
  unfold parseValue
  unfold stringLiteral
  rw [List.cons_append, skipSpace_append_cons ws '"' _ hws (by decide)]
  simp only [show ¬ ('"' = '{') by decide, show ¬ ('"' = '[') by decide, if_false, if_true]
  rw [List.append_assoc, List.singleton_append, hs]
  simp only [hd]

theorem parseValue_int (fuel depth : Nat) (ws : List Char) (d : Int) (rest : List Char)
    (hws : ∀ c ∈ ws, isSpace c = true) (hr : numberEnds rest) :
    parseValue (fuel + 1) depth (ws ++ (intLiteral d ++ rest))
      = some (.num (intLiteral d), rest) := by
  obtain ⟨c, cs, he, hc⟩ := intLiteral_head d
  obtain ⟨h0, h1, h2, h3, h4, h5, h6⟩ := digit_not_special c hc
  have hs := scanNumber_intLiteral d rest hr
  unfold parseValue
  rw [he] at hs ⊢
  rw [List.cons_append] at hs ⊢
  rw [skipSpace_append_cons ws c _ hws h0]
  simp only [h1, h2, h3, h4, h5, h6, if_false]
  rw [hs]

theorem skipSpace_spaces (ws : List Char) (h : ∀ c ∈ ws, isSpace c = true) :
    skipSpace ws = [] := by
  have := skipSpace_append ws [] h
  rw [List.append_nil] at this
  rw [this]
  rfl

theorem skipSpace_idem (cs : List Char) : skipSpace (skipSpace cs) = skipSpace cs := by
  induction cs with
  | nil => rfl
  | cons c cs ih =>
    by_cases h : isSpace c = true
    · simp only [skipSpace, h, if_true]
      exact ih
    · have h' : isSpace c = false := by simpa using h
      rw [skipSpace_cons c cs h', skipSpace_cons c cs h']

theorem parseMembers_skipSpace (fuel depth : Nat) (cs : List Char) :
    parseMembers fuel depth (skipSpace cs) = parseMembers fuel depth cs := by
  cases fuel with
  | zero => unfold parseMembers; rfl
  | succ n =>
    rw [parseMembers, parseMembers, skipSpace_idem]

theorem space_not_number (c : Char) (h : isSpace c = true) :
    isDigit c = false ∧ c ≠ '.' ∧ c ≠ 'e' ∧ c ≠ 'E' := by
  simp only [isSpace, Bool.or_eq_true, decide_eq_true_eq] at h
  rcases h with ((h | h) | h) | h <;> (subst h; decide)

theorem numberEnds_of_sep (ws : List Char) (sep : Char) (rest : List Char)
    (hws : ∀ c ∈ ws, isSpace c = true) (hsep : sep = ',' ∨ sep = '}') :
    numberEnds (ws ++ (sep :: rest)) := by
  intro c cs h
  cases ws with
  | nil =>
    simp only [List.nil_append, List.cons.injEq] at h
    rw [← h.1]
    rcases hsep with hs | hs <;> (subst hs; decide)
  | cons w ws' =>
    simp only [List.cons_append, List.cons.injEq] at h
    rw [← h.1]
    exact space_not_number w (hws w (List.mem_cons_self _ _))

theorem memberText_append (ws : Nat → List Char) (k : Nat) (key : String)
    (value rest tail : List Char) :
    memberText ws k key value rest ++ tail = memberText ws k key value (rest ++ tail) := by
  unfold memberText
  simp only [List.append_assoc, List.cons_append]

theorem skipSpace_memberText (ws : Nat → List Char) (k : Nat) (key : String)
    (value rest : List Char) (hws : ∀ j, ∀ c ∈ ws j, isSpace c = true) :
    ∃ tail, skipSpace (memberText ws k key value rest) = '"' :: tail := by
  unfold memberText stringLiteral
  rw [List.cons_append, skipSpace_append_cons (ws k) '"' _ (hws k) (by decide)]
  exact ⟨_, rfl⟩

theorem parseMembers_succ (fuel depth : Nat) (cs : List Char) :
    parseMembers (fuel + 1) depth cs =
      (match skipSpace cs with
       | [] => none
       | q :: rest =>
         if q = '"' then
           match scanString rest with
           | none => none
           | some (ks, r1) =>
             match skipSpace r1 with
             | [] => none
             | colon :: r2 =>
               if colon = ':' then
                 match parseValue fuel depth r2 with
                 | none => none
                 | some (v, r3) =>
                   match skipSpace r3 with
                   | [] => none
                   | d :: r4 =>
                     if d = ',' then
                       match parseMembers fuel depth r4 with
                       | none => none
                       | some (ms, r) => some ((decodeUnits ks, v) :: ms, r)
                     else if d = '}' then some ([(decodeUnits ks, v)], r4)
                     else none
               else none
         else none) := by
  rw [parseMembers]

/-- A member followed by a comma: the key and its value, then the members
that follow. -/
theorem parseMembers_comma (fuel depth : Nat) (ws : Nat → List Char) (k : Nat)
    (key : String) (value rest : List Char) (v : Json)
    (hws : ∀ j, ∀ c ∈ ws j, isSpace c = true)
    (hv : parseValue fuel depth (ws (k + 2) ++ (value ++ (ws (k + 3) ++ (',' :: rest))))
            = some (v, ws (k + 3) ++ (',' :: rest))) :
    parseMembers (fuel + 1) depth (memberText ws k key value (',' :: rest)) =
      (match parseMembers fuel depth rest with
       | none => none
       | some (ms, r) => some ((key.data, v) :: ms, r)) := by
  obtain ⟨ks, hs, hd⟩ := scanString_escapeChars key.data
    (ws (k + 1) ++ (':' :: (ws (k + 2) ++ (value ++ (ws (k + 3) ++ (',' :: rest))))))
  rw [parseMembers_succ]
  unfold memberText stringLiteral
  rw [List.cons_append, skipSpace_append_cons (ws k) '"' _ (hws k) (by decide)]
  simp only [if_true]
  rw [List.append_assoc, List.singleton_append, hs]
  simp only
  rw [skipSpace_append_cons (ws (k + 1)) ':' _ (hws (k + 1)) (by decide)]
  simp only [if_true]
  rw [hv]
  simp only
  rw [skipSpace_append_cons (ws (k + 3)) ',' _ (hws (k + 3)) (by decide)]
  simp only [if_true, hd]

/-- The last member of an object, followed by the closing brace. -/
theorem parseMembers_last (fuel depth : Nat) (ws : Nat → List Char) (k : Nat)
    (key : String) (value rest : List Char) (v : Json)
    (hws : ∀ j, ∀ c ∈ ws j, isSpace c = true)
    (hv : parseValue fuel depth (ws (k + 2) ++ (value ++ (ws (k + 3) ++ ('}' :: rest))))
            = some (v, ws (k + 3) ++ ('}' :: rest))) :
    parseMembers (fuel + 1) depth (memberText ws k key value ('}' :: rest)) =
      some ([(key.data, v)], rest) := by
  obtain ⟨ks, hs, hd⟩ := scanString_escapeChars key.data
    (ws (k + 1) ++ (':' :: (ws (k + 2) ++ (value ++ (ws (k + 3) ++ ('}' :: rest))))))
  rw [parseMembers_succ]
  unfold memberText stringLiteral
  rw [List.cons_append, skipSpace_append_cons (ws k) '"' _ (hws k) (by decide)]
  simp only [if_true]
  rw [List.append_assoc, List.singleton_append, hs]
  simp only
  rw [skipSpace_append_cons (ws (k + 1)) ':' _ (hws (k + 1)) (by decide)]
  simp only [if_true]
  rw [hv]
  simp only
  rw [skipSpace_append_cons (ws (k + 3)) '}' _ (hws (k + 3)) (by decide)]
  simp only [show ¬ ('}' = ',') by decide, if_false, if_true, hd]

/-- An object whose members parse. -/
theorem parseValue_object (fuel depth : Nat) (ws : List Char) (members : List Char)
    (ms : List (List Char × Json)) (rest : List Char)
    (hdepth : depth < maxNestingDepth)
    (hws : ∀ c ∈ ws, isSpace c = true)
    (hhead : ∃ tail, skipSpace members = '"' :: tail)
    (hm : parseMembers fuel (depth + 1) members = some (ms, rest)) :
    parseValue (fuel + 1) depth (ws ++ ('{' :: members)) = some (.obj ms, rest) := by
  obtain ⟨tail, ht⟩ := hhead
  have hm' : parseMembers fuel (depth + 1) ('"' :: tail) = some (ms, rest) := by
    rw [← ht, parseMembers_skipSpace, hm]
  unfold parseValue
  rw [skipSpace_append_cons ws '{' _ hws (by decide)]
  simp only [if_true, Nat.not_le.mpr hdepth, if_false]
  rw [ht]
  simp only [show ¬ ('"' = '}') by decide, if_false]
  rw [hm']

/-! ### The whole body -/

/-- The five members of the inner object parse to the five fields. -/
theorem parseMembers_signInResponse (j : Nat) (ws : Nat → List Char)
    (t : String) (d i : Int) (u v : String) (tail : List Char)
    (hws : ∀ k, ∀ c ∈ ws k, isSpace c = true) :
    parseMembers (j + 6) 2
      (memberText ws 5 "token" (stringLiteral t) (',' ::
        memberText ws 9 "duration" (intLiteral d) (',' ::
        memberText ws 13 "idleTimeout" (intLiteral i) (',' ::
        memberText ws 17 "userName" (stringLiteral u) (',' ::
        memberText ws 21 "userId" (stringLiteral v) ('}' :: tail)))))) =
      some ([("token".data, .str t.data), ("duration".data, .num (intLiteral d)),
             ("idleTimeout".data, .num (intLiteral i)), ("userName".data, .str u.data),
             ("userId".data, .str v.data)], tail) := by
  rw [parseMembers_comma (j + 5) 2 ws 5 "token" _ _ (.str t.data) hws
        (parseValue_string (j + 4) 2 _ t _ (hws _)),
      parseMembers_comma (j + 4) 2 ws 9 "duration" _ _ (.num (intLiteral d)) hws
        (parseValue_int (j + 3) 2 _ d _ (hws _)
          (numberEnds_of_sep _ _ _ (hws _) (Or.inl rfl))),
      parseMembers_comma (j + 3) 2 ws 13 "idleTimeout" _ _ (.num (intLiteral i)) hws
        (parseValue_int (j + 2) 2 _ i _ (hws _)
          (numberEnds_of_sep _ _ _ (hws _) (Or.inl rfl))),
      parseMembers_comma (j + 2) 2 ws 17 "userName" _ _ (.str u.data) hws
        (parseValue_string (j + 1) 2 _ u _ (hws _)),
      parseMembers_last (j + 1) 2 ws 21 "userId" _ _ (.str v.data) hws
        (parseValue_string j 2 _ v _ (hws _))]

/-- The text of a body of the documented form parses to the envelope object. -/
theorem parseValue_signInBody (j : Nat) (ws : Nat → List Char)
    (t : String) (d i : Int) (u v : String)
    (hws : ∀ k, ∀ c ∈ ws k, isSpace c = true) :
    parseValue (j + 9) 0 (signInBody ws t d i u v).data =
      some (.obj [("signInResponse".data,
        .obj [("token".data, .str t.data), ("duration".data, .num (intLiteral d)),
              ("idleTimeout".data, .num (intLiteral i)), ("userName".data, .str u.data),
              ("userId".data, .str v.data)])], ws 25) := by
  have hinner := parseMembers_signInResponse j ws t d i u v (ws 4 ++ ('}' :: ws 25)) hws
  have hobj := parseValue_object (j + 6) 1 (ws 3) _ _ _ (by decide) (hws 3)
    (skipSpace_memberText ws 5 "token" _ _ hws) hinner
  have hval : parseValue (j + 7) 1
      (ws (1 + 2) ++ (signInResponseText ws t d i u v ++ (ws (1 + 3) ++ ('}' :: ws 25))))
      = some (.obj [("token".data, .str t.data), ("duration".data, .num (intLiteral d)),
              ("idleTimeout".data, .num (intLiteral i)), ("userName".data, .str u.data),
              ("userId".data, .str v.data)], ws (1 + 3) ++ ('}' :: ws 25)) := by
    unfold signInResponseText
    simp only [List.cons_append, memberText_append, List.nil_append,
      List.singleton_append]
    exact hobj
  have houter := parseMembers_last (j + 7) 1 ws 1 "signInResponse" _ (ws 25) _ hws hval
  unfold signInBody
  exact parseValue_object (j + 8) 0 (ws 0) _ _ _ (by decide) (hws 0)
    (skipSpace_memberText ws 1 "signInResponse" _ _ hws) houter

theorem signInBody_length (ws : Nat → List Char) (t : String) (d i : Int) (u v : String) :
    ∃ j, 2 * (signInBody ws t d i u v).length + 1 = j + 9 := by
  refine ⟨2 * (signInBody ws t d i u v).length - 8, ?_⟩
  have : 8 ≤ (signInBody ws t d i u v).length := by
    unfold signInBody signInResponseText memberText stringLiteral
    simp only [String.length, List.length_append, List.length_cons]
    omega
  omega

theorem parseJson_signInBody (ws : Nat → List Char)
    (t : String) (d i : Int) (u v : String)
    (hws : ∀ k, ∀ c ∈ ws k, isSpace c = true) :
    parseJson (signInBody ws t d i u v) =
      some (.obj [("signInResponse".data,
        .obj [("token".data, .str t.data), ("duration".data, .num (intLiteral d)),
              ("idleTimeout".data, .num (intLiteral i)), ("userName".data, .str u.data),
              ("userId".data, .str v.data)])]) := by
  obtain ⟨j, hj⟩ := signInBody_length ws t d i u v
  unfold parseJson
  rw [hj, parseValue_signInBody j ws t d i u v hws]
  simp only [skipSpace_spaces (ws 25) (hws 25), if_true]

/-- Storing the envelope object fills the five fields. -/
theorem storeMembers_envelope (t : String) (d i : Int) (u v : String)
    (hd : inInt64 d) (hi : inInt64 i) :
    storeMembers storeEnvelopeField ⟨SignInResponse.zero⟩
      [("signInResponse".data,
        .obj [("token".data, .str t.data), ("duration".data, .num (intLiteral d)),
              ("idleTimeout".data, .num (intLiteral i)), ("userName".data, .str u.data),
              ("userId".data, .str v.data)])] = .ok ⟨⟨t, d, i, u, v⟩⟩ := by
  have e1 : fieldMatches "signInResponse" "signInResponse".data = true := by decide
  have a1 : fieldMatches "token" "token".data = true := by decide
  have b1 : fieldMatches "token" "duration".data = false := by decide
  have b2 : fieldMatches "duration" "duration".data = true := by decide
  have c1 : fieldMatches "token" "idleTimeout".data = false := by decide
  have c2 : fieldMatches "duration" "idleTimeout".data = false := by decide
  have c3 : fieldMatches "idleTimeout" "idleTimeout".data = true := by decide
  have d1 : fieldMatches "token" "userName".data = false := by decide
  have d2 : fieldMatches "duration" "userName".data = false := by decide
  have d3 : fieldMatches "idleTimeout" "userName".data = false := by decide
  have d4 : fieldMatches "userName" "userName".data = true := by decide
  have f1 : fieldMatches "token" "userId".data = false := by decide
  have f2 : fieldMatches "duration" "userId".data = false := by decide
  have f3 : fieldMatches "idleTimeout" "userId".data = false := by decide
  have f4 : fieldMatches "userName" "userId".data = false := by decide
  have f5 : fieldMatches "userId" "userId".data = true := by decide
  simp only [storeMembers, storeEnvelopeField, storeSignInResponse, storeSignInResponseField,
    storeString, storeInt64, parseInt64_intLiteral d hd, parseInt64_intLiteral i hi,
    e1, a1, b1, b2, c1, c2, c3, d1, d2, d3, d4, f1, f2, f3, f4, f5,
    if_true, if_false, Except.map, Bool.false_eq_true]

/-- C10: every response body of the form `{"signInResponse": {"token": t,
"duration": d, "idleTimeout": i, "userName": u, "userId": v}}`, with any
strings `t`, `u`, `v`, any `int64` values `d`, `i` and any white space between
its tokens, is decoded without error to the `SignInResponse` with exactly those
five values. -/
theorem decodeResponse_signInBody (ws : Nat → List Char)
    (t : String) (d i : Int) (u v : String)
    (hws : ∀ k, ∀ c ∈ ws k, isSpace c = true)
    (hd : inInt64 d) (hi : inInt64 i) :
    decodeResponse (signInBody ws t d i u v) = .ok ⟨t, d, i, u, v⟩ := by
  unfold decodeResponse unmarshal
  rw [parseJson_signInBody ws t d i u v hws]
  simp only
  rw [storeMembers_envelope t d i u v hd hi]

theorem decodeResponse_signInBody_witness :
    signInBody sampleSpaces "Q4ppbgqEymry1Ml4g4v8sSCeoIC8sICC" 315360000000 14400000
        "admin@theplatform.com"
        "http://stg-admin.identity.auth.theplatform.com/idm/data/User/mps/1150127438"
      = sampleResponse ∧
    inInt64 315360000000 ∧ inInt64 14400000 ∧
    decodeResponse (signInBody sampleSpaces "Q4ppbgqEymry1Ml4g4v8sSCeoIC8sICC"
        315360000000 14400000 "admin@theplatform.com"
        "http://stg-admin.identity.auth.theplatform.com/idm/data/User/mps/1150127438")
      = .ok ⟨"Q4ppbgqEymry1Ml4g4v8sSCeoIC8sICC", 315360000000, 14400000,
          "admin@theplatform.com",
          "http://stg-admin.identity.auth.theplatform.com/idm/data/User/mps/1150127438"⟩ ∧
    decodeResponse sampleResponse
      = .ok ⟨"Q4ppbgqEymry1Ml4g4v8sSCeoIC8sICC", 315360000000, 14400000,
          "admin@theplatform.com",
          "http://stg-admin.identity.auth.theplatform.com/idm/data/User/mps/1150127438"⟩ :=
  ⟨by set_option maxRecDepth 100000 in decide, by decide, by decide,
   decodeResponse_signInBody sampleSpaces _ _ _ _ _
     (fun k c hc => by
        unfold sampleSpaces at hc
        split_ifs at hc <;> simp at hc <;> (subst hc; decide))
     (by decide) (by decide),
   by set_option maxRecDepth 100000 in decide⟩

/-! ### The bound on nested calls is enough -/

theorem skipSpace_length (cs : List Char) : (skipSpace cs).length ≤ cs.length := by
  induction cs with
  | nil => simp [skipSpace]
  | cons c cs ih =>
    unfold skipSpace
    split_ifs
    · simp only [List.length_cons]; omega
    · simp

theorem consUnit_some (u : StrUnit) (x : Option (List StrUnit × List Char))
    (us : List StrUnit) (r : List Char) (h : consUnit u x = some (us, r)) :
    ∃ us', x = some (us', r) := by
  cases x with
  | none => simp [consUnit] at h
  | some p =>
    obtain ⟨a, b⟩ := p
    simp only [consUnit, Option.some.injEq, Prod.mk.injEq] at h
    exact ⟨a, by rw [h.2]⟩

theorem scanString_length (n : Nat) :
    ∀ (cs : List Char), cs.length ≤ n →
      ∀ us r, scanString cs = some (us, r) → r.length < cs.length := by
  induction n with
  | zero =>
    intro cs hn us r h
    cases cs with
    | nil => simp [scanString] at h
    | cons c cs => simp at hn
  | succ n ih =>
    intro cs hn us r h
    cases cs with
    | nil => simp [scanString] at h
    | cons c cs =>
      rw [scanString.eq_def] at h
      simp only at h
      simp only [List.length_cons] at hn ⊢
      split_ifs at h with h1 h2 h3
      · simp only [Option.some.injEq, Prod.mk.injEq] at h
        rw [← h.2]; omega
      · split at h
        · simp at h
        · rename_i e cs1
          simp only [List.length_cons] at hn ⊢
          split_ifs at h with h4
          · split at h
            · rename_i a b c2 d cs2
              simp only [List.length_cons] at hn ⊢
              split at h
              · obtain ⟨us', hu⟩ := consUnit_some _ _ _ _ h
                have := ih cs2 (by omega) us' r hu
                omega
              · simp at h
            · simp at h
          · split at h
            · obtain ⟨us', hu⟩ := consUnit_some _ _ _ _ h
              have := ih cs1 (by omega) us' r hu
              omega
            · simp at h
      · obtain ⟨us', hu⟩ := consUnit_some _ _ _ _ h
        have := ih cs (by omega) us' r hu
        omega

theorem takeDigits_length (cs : List Char) : (takeDigits cs).2.length ≤ cs.length := by
  induction cs with
  | nil => simp [takeDigits]
  | cons c cs ih =>
    unfold takeDigits
    split_ifs
    · simp only [List.length_cons]; omega
    · simp

theorem scanInt_length (cs ds r : List Char) (h : scanInt cs = some (ds, r)) :
    r.length ≤ cs.length := by
  cases cs with
  | nil => simp [scanInt] at h
  | cons c cs =>
    unfold scanInt at h
    simp only at h
    split_ifs at h
    · simp only [Option.some.injEq, Prod.mk.injEq] at h
      rw [← h.2]; simp
    · simp only [Option.some.injEq, Prod.mk.injEq] at h
      rw [← h.2]
      have := takeDigits_length cs
      simp only [List.length_cons]; omega

theorem scanFrac_length (cs ds r : List Char) (h : scanFrac cs = some (ds, r)) :
    r.length ≤ cs.length := by
  cases cs with
  | nil =>
    simp only [scanFrac, Option.some.injEq, Prod.mk.injEq] at h
    rw [← h.2]
  | cons c cs =>
    unfold scanFrac at h
    simp only at h
    split_ifs at h
    · have := takeDigits_length cs
      split at h
      · simp at h
      · rename_i ds1 rest _ heq
        simp only [Option.some.injEq, Prod.mk.injEq] at h
        rw [heq] at this
        rw [← h.2]
        simp only [List.length_cons]
        simp only at this
        omega
    · simp only [Option.some.injEq, Prod.mk.injEq] at h
      rw [← h.2]

theorem scanExp_length (cs ds r : List Char) (h : scanExp cs = some (ds, r)) :
    r.length ≤ cs.length := by
  cases cs with
  | nil =>
    simp only [scanExp, Option.some.injEq, Prod.mk.injEq] at h
    rw [← h.2]
  | cons c cs =>
    unfold scanExp at h
    simp only at h
    split_ifs at h
    · split at h
      · simp at h
      · rename_i s cs1
        split_ifs at h
        · have := takeDigits_length cs1
          split at h
          · simp at h
          · rename_i ds1 rest _ heq
            simp only [Option.some.injEq, Prod.mk.injEq] at h
            rw [heq] at this
            rw [← h.2]
            simp only [List.length_cons]
            simp only at this
            omega
        · have := takeDigits_length (s :: cs1)
          split at h
          · simp at h
          · rename_i ds1 rest _ heq
            simp only [Option.some.injEq, Prod.mk.injEq] at h
            rw [heq] at this
            rw [← h.2]
            simp only [List.length_cons] at this ⊢
            omega
    · simp only [Option.some.injEq, Prod.mk.injEq] at h
      rw [← h.2]

theorem scanUnsigned_length (cs ds r : List Char) (h : scanUnsigned cs = some (ds, r)) :
    r.length ≤ cs.length := by
  unfold scanUnsigned at h
  split at h
  · simp at h
  · rename_i i r1 h1
    split at h
    · simp at h
    · rename_i f r2 h2
      split at h
      · simp at h
      · rename_i e r3 h3
        simp only [Option.some.injEq, Prod.mk.injEq] at h
        have a1 := scanInt_length _ _ _ h1
        have a2 := scanFrac_length _ _ _ h2
        have a3 := scanExp_length _ _ _ h3
        rw [← h.2]; omega

theorem scanNumber_length (cs ds r : List Char) (h : scanNumber cs = some (ds, r)) :
    r.length ≤ cs.length := by
  cases cs with
  | nil => simp [scanNumber] at h
  | cons c cs =>
    unfold scanNumber at h
    simp only at h
    split_ifs at h
    · split at h
      · simp at h
      · rename_i lit rest h1
        simp only [Option.some.injEq, Prod.mk.injEq] at h
        have := scanUnsigned_length _ _ _ h1
        rw [← h.2]
        simp only [List.length_cons]; omega
    · exact scanUnsigned_length _ _ _ h

theorem scanWord_length (word : List Char) (v x : Json) (cs r : List Char)
    (h : scanWord word v cs = some (x, r)) : r.length ≤ cs.length := by
  unfold scanWord at h
  split_ifs at h
  simp only [Option.some.injEq, Prod.mk.injEq] at h
  rw [← h.2]
  simp

/-- What a parse leaves is no longer than what it was given. -/
theorem parse_length (f : Nat) :
    (∀ dp cs v r, parseValue f dp cs = some (v, r) → r.length ≤ cs.length) ∧
    (∀ dp cs ms r, parseMembers f dp cs = some (ms, r) → r.length ≤ cs.length) ∧
    (∀ dp cs xs r, parseElements f dp cs = some (xs, r) → r.length ≤ cs.length) := by
  induction f with
  | zero =>
    refine ⟨?_, ?_, ?_⟩ <;> intro dp cs v r h
    · rw [parseValue] at h; simp at h
    · rw [parseMembers] at h; simp at h
    · rw [parseElements] at h; simp at h
  | succ f ih =>
    obtain ⟨ihV, ihM, ihE⟩ := ih
    refine ⟨?_, ?_, ?_⟩
    · intro dp cs v r h
      rw [parseValue] at h
      have h0 := skipSpace_length cs
      split at h
      · simp at h
      · rename_i c rest hs
        rw [hs] at h0
        simp only [List.length_cons] at h0
        by_cases hc1 : c = '{'
        · simp only [hc1, if_true] at h
          by_cases hdp : maxNestingDepth ≤ dp
          · simp [hdp] at h
          · simp only [hdp, if_false] at h
            have h1 := skipSpace_length rest
            split at h
            · simp at h
            · rename_i d rest1 hs1
              rw [hs1] at h1
              simp only [List.length_cons] at h1
              split_ifs at h
              · simp only [Option.some.injEq, Prod.mk.injEq] at h
                rw [← h.2]; omega
              · split at h
                · simp at h
                · rename_i ms r1 hm
                  simp only [Option.some.injEq, Prod.mk.injEq] at h
                  have := ihM _ _ _ _ hm
                  simp only [List.length_cons] at this
                  rw [← h.2]; omega
        simp only [hc1, if_false] at h
        by_cases hc2 : c = '['
        · simp only [hc2, if_true] at h
          by_cases hdp : maxNestingDepth ≤ dp
          · simp [hdp] at h
          · simp only [hdp, if_false] at h
            have h1 := skipSpace_length rest
            split at h
            · simp at h
            · rename_i d rest1 hs1
              rw [hs1] at h1
              simp only [List.length_cons] at h1
              split_ifs at h
              · simp only [Option.some.injEq, Prod.mk.injEq] at h
                rw [← h.2]; omega
              · split at h
                · simp at h
                · rename_i xs r1 hm
                  simp only [Option.some.injEq, Prod.mk.injEq] at h
                  have := ihE _ _ _ _ hm
                  simp only [List.length_cons] at this
                  rw [← h.2]; omega
        simp only [hc2, if_false] at h
        split_ifs at h
        · split at h
          · simp at h
          · rename_i us r1 hm
            simp only [Option.some.injEq, Prod.mk.injEq] at h
            have := scanString_length _ _ (le_refl _) _ _ hm
            rw [← h.2]; omega
        · have := scanWord_length _ _ _ _ _ h
          simp only [List.length_cons] at this
          omega
        · have := scanWord_length _ _ _ _ _ h
          simp only [List.length_cons] at this
          omega
        · have := scanWord_length _ _ _ _ _ h
          simp only [List.length_cons] at this
          omega
        · split at h
          · simp at h
          · rename_i lit r1 hm
            simp only [Option.some.injEq, Prod.mk.injEq] at h
            have := scanNumber_length _ _ _ hm
            simp only [List.length_cons] at this
            rw [← h.2]; omega
    · intro dp cs ms r h
      rw [parseMembers] at h
      have h0 := skipSpace_length cs
      split at h
      · simp at h
      · rename_i q rest hs
        rw [hs] at h0
        simp only [List.length_cons] at h0
        split_ifs at h
        split at h
        · simp at h
        · rename_i ks r1 hk
          have h1 := scanString_length _ _ (le_refl _) _ _ hk
          have h2 := skipSpace_length r1
          split at h
          · simp at h
          · rename_i colon r2 hs2
            rw [hs2] at h2
            simp only [List.length_cons] at h2
            split_ifs at h
            split at h
            · simp at h
            · rename_i v r3 hv
              have h3 := ihV _ _ _ _ hv
              have h4 := skipSpace_length r3
              split at h
              · simp at h
              · rename_i d r4 hs4
                rw [hs4] at h4
                simp only [List.length_cons] at h4
                split_ifs at h
                · split at h
                  · simp at h
                  · rename_i ms1 r5 hm
                    simp only [Option.some.injEq, Prod.mk.injEq] at h
                    have := ihM _ _ _ _ hm
                    rw [← h.2]; omega
                · simp only [Option.some.injEq, Prod.mk.injEq] at h
                  rw [← h.2]; omega
    · intro dp cs xs r h
      rw [parseElements] at h
      split at h
      · simp at h
      · rename_i v r1 hv
        have h3 := ihV _ _ _ _ hv
        have h4 := skipSpace_length r1
        split at h
        · simp at h
        · rename_i d r2 hs2
          rw [hs2] at h4
          simp only [List.length_cons] at h4
          split_ifs at h
          · split at h
            · simp at h
            · rename_i xs1 r5 hm
              simp only [Option.some.injEq, Prod.mk.injEq] at h
              have := ihE _ _ _ _ hm
              rw [← h.2]; omega
          · simp only [Option.some.injEq, Prod.mk.injEq] at h
            rw [← h.2]; omega

theorem parseValue_succ (fuel depth : Nat) (cs : List Char) :
    parseValue (fuel + 1) depth cs =
      (match skipSpace cs with
       | [] => none
       | c :: rest =>
         if c = '{' then
           if maxNestingDepth ≤ depth then none
           else
             match skipSpace rest with
             | [] => none
             | d :: rest1 =>
               if d = '}' then some (.obj [], rest1)
               else
                 match parseMembers fuel (depth + 1) (d :: rest1) with
                 | none => none
                 | some (ms, r) => some (.obj ms, r)
         else if c = '[' then
           if maxNestingDepth ≤ depth then none
           else
             match skipSpace rest with
             | [] => none
             | d :: rest1 =>
               if d = ']' then some (.arr [], rest1)
               else
                 match parseElements fuel (depth + 1) (d :: rest1) with
                 | none => none
                 | some (xs, r) => some (.arr xs, r)
         else if c = '"' then
           match scanString rest with
           | none => none
           | some (us, r) => some (.str (decodeUnits us), r)
         else if c = 't' then scanWord ['t', 'r', 'u', 'e'] (.bool true) (c :: rest)
         else if c = 'f' then scanWord ['f', 'a', 'l', 's', 'e'] (.bool false) (c :: rest)
         else if c = 'n' then scanWord ['n', 'u', 'l', 'l'] .null (c :: rest)
         else
           match scanNumber (c :: rest) with
           | none => none
           | some (lit, r) => some (.num lit, r)) := by
  rw [parseValue]

theorem parseElements_succ (fuel depth : Nat) (cs : List Char) :
    parseElements (fuel + 1) depth cs =
      (match parseValue fuel depth cs with
       | none => none
       | some (v, r1) =>
         match skipSpace r1 with
         | [] => none
         | d :: r2 =>
           if d = ',' then
             match parseElements fuel depth r2 with
             | none => none
             | some (xs, r) => some (v :: xs, r)
           else if d = ']' then some ([v], r2)
           else none) := by
  rw [parseElements]

/-- Above twice the length of the input, one more nested call changes nothing. -/
theorem parse_fuel_succ (f : Nat) :
    (∀ (dp : Nat) (cs : List Char), 2 * cs.length + 1 ≤ f →
      parseValue (f + 1) dp cs = parseValue f dp cs) ∧
    (∀ (dp : Nat) (cs : List Char), 2 * cs.length + 1 ≤ f →
      parseMembers (f + 1) dp cs = parseMembers f dp cs) ∧
    (∀ (dp : Nat) (cs : List Char), 2 * cs.length + 2 ≤ f →
      parseElements (f + 1) dp cs = parseElements f dp cs) := by
  induction f with
  | zero =>
    refine ⟨?_, ?_, ?_⟩ <;> intro dp cs h <;> omega
  | succ f ih =>
    obtain ⟨ihV, ihM, ihE⟩ := ih
    refine ⟨?_, ?_, ?_⟩
    · intro dp cs hf
      rw [parseValue_succ (f + 1), parseValue_succ f]
      have h0 := skipSpace_length cs
      cases hs : skipSpace cs with
      | nil => rfl
      | cons c rest =>
        rw [hs] at h0
        simp only [List.length_cons] at h0
        simp only
        have h1 := skipSpace_length rest
        cases hs1 : skipSpace rest with
        | nil => rfl
        | cons d rest1 =>
          rw [hs1] at h1
          simp only [List.length_cons] at h1
          simp only
          rw [ihM (dp + 1) (d :: rest1) (by simp only [List.length_cons]; omega),
            ihE (dp + 1) (d :: rest1) (by simp only [List.length_cons]; omega)]
    · intro dp cs hf
      rw [parseMembers_succ (f + 1), parseMembers_succ f]
      have h0 := skipSpace_length cs
      cases hs : skipSpace cs with
      | nil => rfl
      | cons q rest =>
        rw [hs] at h0
        simp only [List.length_cons] at h0
        simp only
        split_ifs
        · cases hk : scanString rest with
          | none => rfl
          | some p =>
            obtain ⟨ks, r1⟩ := p
            have h1 := scanString_length _ _ (le_refl _) _ _ hk
            have h2 := skipSpace_length r1
            simp only
            cases hs2 : skipSpace r1 with
            | nil => rfl
            | cons colon r2 =>
              rw [hs2] at h2
              simp only [List.length_cons] at h2
              simp only
              split_ifs
              · rw [ihV dp r2 (by omega)]
                cases hv : parseValue f dp r2 with
                | none => rfl
                | some p =>
                  obtain ⟨v, r3⟩ := p
                  have h3 := (parse_length f).1 _ _ _ _ hv
                  have h4 := skipSpace_length r3
                  simp only
                  cases hs4 : skipSpace r3 with
                  | nil => rfl
                  | cons d r4 =>
                    rw [hs4] at h4
                    simp only [List.length_cons] at h4
                    simp only
                    rw [ihM dp r4 (by omega)]
              · rfl
        · rfl
    · intro dp cs hf
      rw [parseElements_succ (f + 1), parseElements_succ f]
      rw [ihV dp cs (by omega)]
      cases hv : parseValue f dp cs with
      | none => rfl
      | some p =>
        obtain ⟨v, r1⟩ := p
        have h3 := (parse_length f).1 _ _ _ _ hv
        have h4 := skipSpace_length r1
        simp only
        cases hs2 : skipSpace r1 with
        | nil => rfl
        | cons d r2 =>
          rw [hs2] at h4
          simp only [List.length_cons] at h4
          simp only
          rw [ihE dp r2 (by omega)]

/-- The result of a parse does not depend on the bound on nested calls, once
the bound is above twice the length of the input: the bound that `parseJson`
starts from never cuts a parse short. -/
theorem parseValue_fuel (dp : Nat) (cs : List Char) (f : Nat) (h : 2 * cs.length + 1 ≤ f) :
    parseValue f dp cs = parseValue (2 * cs.length + 1) dp cs := by
  induction f with
  | zero => omega
  | succ f ih =>
    by_cases hf : 2 * cs.length + 1 ≤ f
    · rw [(parse_fuel_succ f).1 dp cs hf, ih hf]
    · have : f + 1 = 2 * cs.length + 1 := by omega
      rw [this]

/-! ### The nesting limit -/

/-- At the nesting limit no further array or object is opened. -/
theorem parseValue_at_limit (fuel depth : Nat) (c : Char) (cs : List Char)
    (hc : c = '[' ∨ c = '{') (hd : maxNestingDepth ≤ depth) :
    parseValue fuel depth (c :: cs) = none := by
  cases fuel with
  | zero => rw [parseValue]
  | succ f =>
    rw [parseValue_succ]
    rcases hc with hc | hc
    · subst hc
      rw [skipSpace_cons '[' cs (by decide)]
      simp [hd]
    · subst hc
      rw [skipSpace_cons '{' cs (by decide)]
      simp [hd]

/-- Opening brackets that go beyond the nesting limit are a syntax error,
whatever follows them. -/
theorem parseValue_too_deep (k : Nat) :
    ∀ (fuel depth : Nat) (rest : List Char), maxNestingDepth < depth + (k + 1) →
      parseValue fuel depth (List.replicate (k + 1) '[' ++ rest) = none := by
  induction k with
  | zero =>
    intro fuel depth rest h
    exact parseValue_at_limit fuel depth '[' rest (Or.inl rfl) (by omega)
  | succ k ih =>
    intro fuel depth rest h
    by_cases hd : maxNestingDepth ≤ depth
    · rw [List.replicate_succ, List.cons_append]
      exact parseValue_at_limit fuel depth '[' _ (Or.inl rfl) hd
    · cases fuel with
      | zero => rw [parseValue]
      | succ f =>
        rw [parseValue_succ, List.replicate_succ, List.cons_append,
          skipSpace_cons '[' _ (by decide)]
        simp only [show ¬ ('[' = '{') by decide, if_false, if_true, hd]
        rw [List.replicate_succ, List.cons_append, skipSpace_cons '[' _ (by decide)]
        simp only [show ¬ ('[' = ']') by decide, if_false]
        have hinner : parseElements f (depth + 1)
            ('[' :: (List.replicate k '[' ++ rest)) = none := by
          cases f with
          | zero => rw [parseElements]
          | succ g =>
            rw [parseElements_succ]
            have := ih g (depth + 1) rest (by omega)
            rw [List.replicate_succ, List.cons_append] at this
            rw [this]
        rw [hinner]

/-- A body that opens more arrays than the limit of 10000 is not decodable. -/
theorem parseJson_too_deep (k : Nat) (rest : List Char) (hk : maxNestingDepth < k) :
    parseJson (String.mk (List.replicate k '[' ++ rest)) = none := by
  obtain ⟨j, rfl⟩ : ∃ j, k = j + 1 := ⟨k - 1, by omega⟩
  unfold parseJson
  rw [parseValue_too_deep j _ 0 rest (by omega)]

/-- Arrays nested up to the limit parse, with fuel of twice their depth. -/
theorem parseValue_nested (k : Nat) :
    ∀ (fuel depth : Nat) (rest : List Char), depth + k < maxNestingDepth →
      2 * k + 1 ≤ fuel →
      parseValue fuel depth
        (List.replicate (k + 1) '[' ++ (List.replicate (k + 1) ']' ++ rest))
        = some (nestedArrays k, rest) := by
  induction k with
  | zero =>
    intro fuel depth rest hd hf
    obtain ⟨f, rfl⟩ : ∃ f, fuel = f + 1 := ⟨fuel - 1, by omega⟩
    have hd' : ¬ maxNestingDepth ≤ depth := by omega
    rw [parseValue_succ]
    simp only [List.replicate_succ, List.replicate_zero, List.cons_append, List.nil_append]
    rw [skipSpace_cons '[' _ (by decide)]
    simp only [show ¬ ('[' = '{') by decide, if_false, if_true, hd']
    rw [skipSpace_cons ']' _ (by decide)]
    simp only [if_true]
    rfl
  | succ k ih =>
    intro fuel depth rest hd hf
    obtain ⟨f, rfl⟩ : ∃ f, fuel = f + 2 := ⟨fuel - 2, by omega⟩
    have hd' : ¬ maxNestingDepth ≤ depth := by omega
    have hinner := ih f (depth + 1) (']' :: rest) (by omega) (by omega)
    have hclose : List.replicate (k + 1 + 1) ']' ++ rest
        = List.replicate (k + 1) ']' ++ (']' :: rest) := by
      rw [List.replicate_succ' (k + 1), List.append_assoc]
      rfl
    rw [hclose]
    generalize List.replicate (k + 1) ']' ++ (']' :: rest) = tail at hinner ⊢
    have e1 : List.replicate (k + 1 + 1) '[' ++ tail
        = '[' :: (List.replicate (k + 1) '[' ++ tail) := rfl
    have e2 : List.replicate (k + 1) '[' ++ tail
        = '[' :: (List.replicate k '[' ++ tail) := rfl
    rw [e1, parseValue_succ, skipSpace_cons '[' _ (by decide)]
    simp only [show ¬ ('[' = '{') by decide, if_false, if_true, hd']
    rw [e2, skipSpace_cons '[' _ (by decide)]
    simp only [show ¬ ('[' = ']') by decide, if_false]
    rw [parseElements_succ, ← e2, hinner]
    simp only
    rw [skipSpace_cons ']' _ (by decide)]
    simp only [show ¬ (']' = ',') by decide, if_false, if_true]
    rfl

/-- Arrays nested as deep as the limit of 10000 allows are decodable: the
limit is the one of the library, which rejects the 10001st. -/
theorem parseJson_nested (k : Nat) (hk : k < maxNestingDepth) :
    parseJson (String.mk (List.replicate (k + 1) '['
      ++ (List.replicate (k + 1) ']' ++ []))) = some (nestedArrays k) := by
  unfold parseJson
  rw [parseValue_nested k _ 0 [] (by omega)
    (by
      simp only [String.length, List.length_append, List.length_replicate, List.length_nil]
      omega)]
  rfl

/-- An object whose member opens arrays beyond the limit is not decodable:
the object itself counts as one level. -/
theorem parseJson_member_too_deep (k : Nat) (rest : List Char)
    (hk : maxNestingDepth ≤ k) :
    parseJson (String.mk ('{' :: '"' :: 'x' :: '"' :: ':' :: (List.replicate k '[' ++ rest)))
      = none := by
  obtain ⟨j, rfl⟩ : ∃ j, k = j + 1 := ⟨k - 1, by unfold maxNestingDepth at hk; omega⟩
  unfold parseJson
  obtain ⟨f, hf⟩ : ∃ f, 2 * (String.mk ('{' :: '"' :: 'x' :: '"' :: ':' ::
      (List.replicate (j + 1) '[' ++ rest))).length + 1 = f + 2 := by
    refine ⟨2 * (String.mk ('{' :: '"' :: 'x' :: '"' :: ':' ::
      (List.replicate (j + 1) '[' ++ rest))).length - 1, ?_⟩
    simp only [String.length, List.length_cons]
    omega
  rw [hf]
  simp only
  rw [parseValue_succ, skipSpace_cons '{' _ (by decide)]
  simp only [if_true, show ¬ (maxNestingDepth ≤ 0) by decide, if_false]
  rw [skipSpace_cons '"' _ (by decide)]
  simp only [show ¬ ('"' = '}') by decide, if_false]
  rw [parseMembers_succ, skipSpace_cons '"' _ (by decide)]
  simp only [if_true]
  rw [scanString_plain 'x' _ (by decide) (by decide) (by decide), scanString_quote]
  simp only [consUnit]
  rw [skipSpace_cons ':' _ (by decide)]
  simp only [if_true]
  rw [parseValue_too_deep j f 1 rest (by omega)]

end authclient
